import Mathlib

/-!
Verification of the EO_river_ice acquisition scripts.

This file gives a shallow embedding of the parts of the repository that the
claims talk about:

* `scripts/RCM/get_rcm.py` — geometry conversion (`geojson_to_wkt` together
  with its helpers `ensure_2d` and `check_bounds`), the query-filter
  construction and control flow of `execute_download`, the configuration
  gate `error_check`, the archive extraction loop `extract_all`, and the
  diagnostics renderer `log2xml`;
* `scripts/sentinel/SentinelClient.py` — the `download_products` loop.

Python floats are modelled as rationals, machine side effects (network,
filesystem, process exit) as explicit event traces, and exceptions as
`Except` values.  The third-party serializer `geomet.wkt.dumps`, which is
called by `geojson_to_wkt` but whose source is not part of the repository,
is modelled from its documented behaviour: each coordinate is printed with
the C format `%.Nf` (fixed `N` decimal digits, here `N = decimals`), points
are joined by single spaces, rings and points by comma-space, and the whole
is wrapped in `POLYGON ((...))`.
-/

namespace EORiverIce

/-! ## Decimal strings

Model of C-style `%d` / `%.Nf` printing on exact values: `natStr` prints a
natural number in base 10 without leading zeros, `coordStr` prints the exact
decimal `n / 10 ^ d` with exactly `d` digits after the point.  The fuel
argument of `natStrAux` only serves to make the recursion structural; any
fuel bounding the number of digits gives the same result. -/

def digitChar (n : ℕ) : Char := Char.ofNat (48 + n)

def digitVal (c : Char) : ℕ := c.toNat - 48

def natStrAux : ℕ → ℕ → List Char
  | 0, _ => []
  | f + 1, n => if n < 10 then [digitChar n] else natStrAux f (n / 10) ++ [digitChar (n % 10)]

def natStr (n : ℕ) : List Char := natStrAux (n + 1) n

/-- Base-10 value of a digit string, as read left to right. -/
def natVal (l : List Char) : ℕ := l.foldl (fun a c => 10 * a + digitVal c) 0

/-- Zero-padding on the left to a total width of `d` characters. -/
def padZeros (d : ℕ) (l : List Char) : List Char := List.replicate (d - l.length) '0' ++ l

/-! ## Fixed-point decimal printing (`%.Nf`)

`coordStr n d` prints the exact decimal `n / 10 ^ d` with exactly `d`
digits after the decimal point, as C's `%.Nf` does; `roundScaled q d` is
the integer `round (q * 10 ^ d)` computed with integer arithmetic only
(so that concrete instances reduce in the kernel).  Ties are rounded up;
the C library rounds ties of the binary double to even, a distinction
that only appears for floats that are exact ties and is below the 10⁻⁴
resolution the scripts use. -/

def coordStr (n : ℤ) (d : ℕ) : List Char :=
  (if n < 0 then ['-'] else []) ++
    natStr (n.natAbs / 10 ^ d) ++ '.' :: padZeros d (natStr (n.natAbs % 10 ^ d))

def roundScaled (q : ℚ) (d : ℕ) : ℤ := (2 * q.num * 10 ^ d + q.den) / (2 * (q.den : ℤ))

/-- Model of `'%.{d}f' % c` applied to the coordinate value `c = q`. -/
def fmtCoord (q : ℚ) (d : ℕ) : List Char := coordStr (roundScaled q d) d

/-! ## The geometry model

`geojson_to_wkt` (scripts/RCM/get_rcm.py, lines 237–288) works on the
`coordinates` entry of a GeoJSON geometry: an arbitrarily nested Python
list whose leaves are lists of numbers.  `CoordTree.point` is a list whose
first element is a number, `CoordTree.branch` a list whose first element is
again a list; Python discriminates the two cases with
`isinstance(geometry[0], (list, tuple))`, which raises `IndexError` on an
empty list — both constructors with an empty list model that same empty
Python list. -/

inductive CoordTree where
  | point : List ℚ → CoordTree
  | branch : List CoordTree → CoordTree

/-- Python exceptions raised by the modelled code. -/
inductive PyErr where
  | valueError : String → PyErr
  | indexError : PyErr
  | typeError : PyErr
deriving DecidableEq

/-- Message of the longitude bounds `ValueError` (get_rcm.py line 277). -/
def lonMsg : String := "Longitude is out of bounds, check your JSON format or data"

/-- Message of the latitude bounds `ValueError` (get_rcm.py line 279). -/
def latMsg : String := "Latitude is out of bounds, check your JSON format or data"

mutual

/-- Model of the nested helper `ensure_2d` (get_rcm.py lines 266–270):
keep only the first two entries of every innermost coordinate list. -/
def ensure_2d : CoordTree → Except PyErr CoordTree
  | .point [] => .error .indexError
  | .point cs => .ok (.point (cs.take 2))
  | .branch [] => .error .indexError
  | .branch ts => (ensure_2dList ts).map .branch

def ensure_2dList : List CoordTree → Except PyErr (List CoordTree)
  | [] => .ok []
  | t :: ts =>
    match ensure_2d t with
    | .error e => .error e
    | .ok t2 =>
      match ensure_2dList ts with
      | .error e => .error e
      | .ok ts2 => .ok (t2 :: ts2)

end

mutual

/-- Model of the nested helper `check_bounds` (get_rcm.py lines 272–279):
longitude outside `[-180, 180]` or latitude outside `[-90, 90]` raises a
`ValueError` with a fixed message; the comparisons are strict, so the
boundary values themselves pass. -/
def check_bounds : CoordTree → Except PyErr Unit
  | .point [] => .error .indexError
  | .point (lon :: rest) =>
    if 180 < lon ∨ lon < -180 then .error (.valueError lonMsg)
    else
      match rest with
      | [] => .error .indexError
      | lat :: _ =>
        if 90 < lat ∨ lat < -90 then .error (.valueError latMsg) else .ok ()
  | .branch [] => .error .indexError
  | .branch ts => check_boundsList ts

def check_boundsList : List CoordTree → Except PyErr Unit
  | [] => .ok ()
  | t :: ts =>
    match check_bounds t with
    | .error e => .error e
    | .ok _ => check_boundsList ts

end

/-- Join a list of character lists with a separator, as Python's
`sep.join(...)` does. -/
def joinSep (sep : List Char) : List (List Char) → List Char
  | [] => []
  | [x] => x
  | x :: y :: xs => x ++ sep ++ joinSep sep (y :: xs)

/-- Effectful map over a list, stopping at the first raised error — the
behaviour of a Python comprehension whose body can raise. -/
def mapE {α β : Type} (f : α → Except PyErr β) : List α → Except PyErr (List β)
  | [] => .ok []
  | a :: as =>
    match f a with
    | .error e => .error e
    | .ok b =>
      match mapE f as with
      | .error e => .error e
      | .ok bs => .ok (b :: bs)

/-- Coordinate list of one vertex, serialized by geomet as
`' '.join(fmt % c for c in pt)`. -/
def dumpPt (d : ℕ) : CoordTree → Except PyErr (List Char)
  | .point cs => .ok (joinSep [' '] (cs.map (fun q => fmtCoord q d)))
  | .branch _ => .error .typeError

/-- One ring, serialized by geomet as `'(%s)' % ', '.join(points)`. -/
def dumpRing (d : ℕ) : CoordTree → Except PyErr (List Char)
  | .branch pts => (mapE (dumpPt d) pts).map (fun ls => '(' :: joinSep [',', ' '] ls ++ [')'])
  | .point _ => .error .typeError

/-- A GeoJSON geometry object: its `type` tag and its `coordinates`. -/
structure Geometry where
  gtype : String
  coordinates : CoordTree

/-- Model of `geomet.wkt.dumps(geometry, decimals=d)` for the polygon case
used by the scripts: `'POLYGON ' + '(%s)' % ', '.join(rings)` with every
coordinate printed as `'%.{d}f' % c`.  Other geometry types are not needed
by the repository's call sites and are mapped to an error. -/
def wktDumps (g : Geometry) (d : ℕ) : Except PyErr (List Char) :=
  if g.gtype = "Polygon" then
    match g.coordinates with
    | .branch rs =>
      (mapE (dumpRing d) rs).map
        (fun ls => ['P', 'O', 'L', 'Y', 'G', 'O', 'N', ' ', '('] ++ joinSep [',', ' '] ls ++ [')'])
    | .point _ => .error .typeError
  else .error (.valueError "Unsupported geometry type")

/-- Does the optional preceding character exist and is it a digit? -/
def prevDigit : Option Char → Bool
  | some p => p.isDigit
  | none => false

def stripAux : Option Char → List Char → List Char
  | _, [] => []
  | prev, c :: rest =>
    if c = ' ' ∧ prevDigit prev = false then stripAux (some c) rest
    else c :: stripAux (some c) rest

/-- Model of `re.sub(r'(?<!\d) ', '', wkt)` (get_rcm.py line 287): delete
every space whose preceding character in the original string is not a
digit (including a space at the start of the string). -/
def stripSpaces (l : List Char) : List Char := stripAux none l

/-- Model of `geojson_to_wkt` (get_rcm.py lines 237–288) on the selected
geometry object, with the destructive update made explicit: the function
returns the final state of the geometry object next to its outcome.  The
source first executes `geometry['coordinates'] = ensure_2d(...)` — an
in-place write to the caller's object — and only then runs `check_bounds`,
so a bounds failure leaves the object already rewritten to 2-D. -/
def geojson_to_wkt (g : Geometry) (d : ℕ) : Geometry × Except PyErr String :=
  match ensure_2d g.coordinates with
  | .error e => (g, .error e)
  | .ok c2 =>
    let g2 : Geometry := { g with coordinates := c2 }
    match check_bounds c2 with
    | .error e => (g2, .error e)
    | .ok _ =>
      match wktDumps g2 d with
      | .error e => (g2, .error e)
      | .ok w => (g2, .ok (String.mk (stripSpaces w)))

/-! ## Run traces

The scripts' side effects — log records, console prints, network calls,
artifact and diagnostic writes, process exit, uncaught exceptions — are
modelled as an explicit event trace in program order. -/

inductive LogLevel where
  | debug | info | warning | error
deriving DecidableEq

inductive Event where
  /-- A `logging.<level>(msg)` call (runtime-formatted texts abbreviated). -/
  | log : LogLevel → String → Event
  /-- A `print(...)` call. -/
  | printMsg : String → Event
  /-- The `rapi.search(...)` catalogue query (network). -/
  | netSearch : Event
  /-- The `rapi.order(...)` submission (network). -/
  | netOrder : Event
  /-- The `rapi.download(...)` poll-and-fetch call (network). -/
  | netDownload : Event
  /-- A `session.get`/`session.post` request of the Sentinel client (network). -/
  | netGet : String → Event
  /-- The keycloak token exchange (network). -/
  | netToken : Event
  /-- A product archive written to the destination directory. -/
  | writeArtifact : String → Event
  /-- One archive member extracted. -/
  | extractMember : String → String → Event
  /-- A `log2xml(log.txt, diag.xml)` call: the diagnostic document is written. -/
  | emitDiag : Event
  /-- A `sys.exit()` — clean interpreter exit. -/
  | exitProc : Event
  /-- An exception that propagates out of the script uncaught. -/
  | raiseExc : String → Event
deriving DecidableEq

def artifacts (tr : List Event) : List String :=
  tr.filterMap (fun e => match e with | .writeArtifact n => some n | _ => none)

def isErrorLog : Event → Bool
  | .log .error _ => true
  | _ => false

def countErrorLogs (tr : List Event) : ℕ := (tr.filter isErrorLog).length

def raised (tr : List Event) : Bool :=
  tr.any (fun e => match e with | .raiseExc _ => true | _ => false)

/-! ## RCM configuration gate (`error_check`, get_rcm.py lines 168–191)

The function logs one `logging.error` naming the violating key — with the
accepted values only in the enumeration case — and then calls `quit()`.
The log record is modelled structurally as an `ECIssue`. -/

inductive ECIssue where
  /-- Log `Property [ k ] is not configured. Add property [ k ] to the xml
  input file.` (line 174). -/
  | missingKey : String → ECIssue
  /-- Log `Wrong input to property [ k ], has to be one of: allowed`
  (line 188). -/
  | wrongValue : String → List String → ECIssue
deriving DecidableEq

def requiredKeys : List String :=
  ["destinationDir", "user", "secret", "mission", "unzip", "download_type",
   "timeout", "resolution", "polarization"]

def resolutionValues : List String :=
  ["Any", "100M", "50M", "30M", "16M", "5M", "3M", "FSL", "H", "LNS"]

def polarizationValues : List String :=
  ["Any", "CH CV", "HH", "HH HV", "HH HV VH VV", "HH VV", "HV", "VH", "VH VV", "VV"]

def checkEnum (k : String) : Option (List String) :=
  [("mission", ["RCMImageProducts"]),
   ("download_type", ["acquisition", "ingestion"]),
   ("unzip", ["True", "False"]),
   ("resolution", resolutionValues),
   ("polarization", polarizationValues)].lookup k

/-- Model of `error_check`: first loop, over the required keys in source
order, halts on the first absent key; second loop, over the configured
properties in order, halts on the first value outside its enumeration.
Returns the emitted error-log records and whether `quit()` was called. -/
def error_check (props : List (String × String)) : List ECIssue × Bool :=
  match requiredKeys.find? (fun k => (props.lookup k).isNone) with
  | some k => ([.missingKey k], true)
  | none =>
    match props.findSome? (fun kv =>
      match checkEnum kv.1 with
      | some allowed => if kv.2 ∈ allowed then none else some (ECIssue.wrongValue kv.1 allowed)
      | none => none) with
    | some issue => ([issue], true)
    | none => ([], false)

/-! ## RCM query filters (get_rcm.py lines 49 and 100–102) -/

def producttype : String := "GRD"

inductive FilterVal where
  | like : List String → FilterVal
  | eq : String → FilterVal
deriving DecidableEq

/-- The `filters` dictionary built by `execute_download`. -/
def rcmFilters (res pol : String) : List (String × FilterVal) :=
  [("Beam Mnemonic", .like ["%" ++ res ++ "%"]),
   ("Product Type", .eq producttype),
   ("Polarization", .like ["%" ++ pol ++ "%"])]

/-! ## RCM extraction loop (`extract_all`, get_rcm.py lines 140–154) -/

structure ZipMember where
  name : String
  /-- Whether `zf.extract(member, ...)` succeeds; `false` models a raised
  `zipfile.error`. -/
  ok : Bool
deriving DecidableEq

structure ZipArchive where
  name : String
  members : List ZipMember
deriving DecidableEq

/-- Model of `extract_all` with `remove=False` (the call site's value):
per archive, one `logging.debug(item)`, then each member is extracted
inside `try: ... except zipfile.error: pass` — a failing member produces
no event at all and the loop continues. -/
def extract_all (archives : List ZipArchive) : List Event :=
  (archives.map (fun a =>
    Event.log .debug a.name ::
      (a.members.map (fun m =>
        if m.ok then [Event.extractMember a.name m.name] else [])).flatten)).flatten

/-! ## RCM main flow (`execute_download`, get_rcm.py lines 88–137, and the
module level, lines 52–86)

The environment carries what the outside world would supply: the parsed
properties block, the geojson glob result, and the result sizes of the two
network calls whose return values steer the control flow. -/

structure RcmEnv where
  props : List (String × String)
  /-- Geometries of the `*.geojson` files found in the work directory, in
  listing order. -/
  geoFiles : List Geometry
  /-- Size of `rapi.get_results('raw')`. -/
  searchCount : ℕ
  /-- Size of the list returned by `rapi.download(...)`. -/
  downloadCount : ℕ
  /-- Zip archives present in the destination directory at extraction time. -/
  archives : List ZipArchive

def pyErrName : PyErr → String
  | .valueError m => "ValueError: " ++ m
  | .indexError => "IndexError"
  | .typeError => "TypeError"

/-- Acceptance of `float(s)` for the strings fed to
`int(float(properties['timeout']))` (get_rcm.py line 121); `float` is a
Python builtin whose source is not part of the repository.  Modelled:
an optional sign followed by digits with at most one decimal point — the
plain-decimal forms a timeout value takes; anything else raises
`ValueError`.  Exponent/infinity spellings are not modelled; no theorem
depends on their acceptance. -/
def floatParseable (s : String) : Bool :=
  let l := match s.data with
    | c :: r => if c = '+' ∨ c = '-' then r else s.data
    | [] => []
  l.all (fun c => c.isDigit || c = '.') && l.any Char.isDigit &&
    decide ((l.filter (fun c => c = '.')).length ≤ 1)

/-- Trace of `execute_download`.  Property accesses are dictionary lookups
that raise `KeyError` when absent; the `timeout` value additionally goes
through `int(float(...))` (line 121, after the order), which raises
`ValueError` on a non-numeric string; no validation (in particular no call
to `error_check`) happens anywhere on this path. -/
def execute_download (env : RcmEnv) : List Event :=
  Event.log .debug "RCMSearch loaded" ::
  match env.props.lookup "user", env.props.lookup "secret" with
  | some _, some _ =>
    -- rapi = EODMSRAPI(user, secret): object construction
    match env.geoFiles.head? with
    | none => [.raiseExc "IndexError"]  -- geo_object[0] on an empty glob result
    | some g =>
      match (geojson_to_wkt g 4).2 with
      | .error e => [.raiseExc (pyErrName e)]
      | .ok _wkt =>
        match env.props.lookup "resolution", env.props.lookup "polarization" with
        | some _res, some _pol =>
          match env.props.lookup "mission" with
          | some _m =>
            .netSearch ::
            if env.searchCount = 0 then
              [.log .info "No images found, exiting download script...", .emitDiag, .exitProc]
            else
              .netOrder ::
              match env.props.lookup "timeout" with
              | some t =>
                if floatParseable t then
                match env.props.lookup "destinationDir" with
                | some _dest =>
                  .netDownload ::
                  ((if env.downloadCount = 0 then
                      [.printMsg "Ordering images took longer than the timeout. Continue...",
                       .log .warning "Ordering RCM images took longer than the timeout. Continue...",
                       .emitDiag]
                    else []) ++
                   (match env.props.lookup "unzip" with
                    | some u =>
                      (if u = "True" then
                        Event.log .debug "Extracting products : ..." ::
                          extract_all env.archives ++ [Event.log .debug "Extracting finished."]
                       else
                        [Event.log .debug "Attribute unzip set to false, not unzipping files."]) ++
                      [.log .info "Download finished", .emitDiag]
                    | none => [.raiseExc "KeyError"]))
                | none => [.raiseExc "KeyError"]
                else [.raiseExc "ValueError"]
              | none => [.raiseExc "KeyError"]
          | none => [.raiseExc "KeyError"]
        | _, _ => [.raiseExc "KeyError"]
  | _, _ => [.raiseExc "KeyError"]

/-- Trace of one interpreter run of get_rcm.py: the module level catches
any failure to read or parse the run-information file (lines 59–66) with a
bare `print` and `exit()` — before logging is even configured — and
otherwise runs `execute_download`. -/
def rcmMain (infoFileOk : Bool) (env : RcmEnv) : List Event :=
  if infoFileOk then execute_download env
  else [.printMsg "ERROR: Reading INFO file - file not found. Check path to INFO file. ",
        .exitProc]

/-! ## Diagnostics renderer (`log2xml`, get_rcm.py lines 204–227)

Python's string methods are modelled by structurally recursive char-list
functions: `splitCh` is `str.split(sep)` with an explicit separator,
`pstrip` is `str.strip()`. -/

def splitChGo (sep : List Char) : ℕ → List Char → List Char → List (List Char)
  | 0, acc, _ => [acc.reverse]
  | _ + 1, acc, [] => [acc.reverse]
  | f + 1, acc, c :: rest =>
    if (c :: rest).take sep.length = sep then
      acc.reverse :: splitChGo sep f [] ((c :: rest).drop sep.length)
    else
      splitChGo sep f (c :: acc) rest

/-- Python `s.split(sep)` for a non-empty separator: greedy left-to-right
scan, adjacent separators produce empty fields. -/
def splitCh (sep l : List Char) : List (List Char) := splitChGo sep (l.length + 1) [] l

/-- Python `s.strip()`: remove leading and trailing whitespace. -/
def pstrip (l : List Char) : List Char :=
  ((l.dropWhile Char.isWhitespace).reverse.dropWhile Char.isWhitespace).reverse

/-- The severity translation table `trans` (line 206); a name outside the
table raises `KeyError`, modelled as `none`. -/
def trans : String → Option String
  | "WARNING" => some "2"
  | "ERROR" => some "1"
  | "INFO" => some "3"
  | "DEBUG" => some "4"
  | _ => none

/-- Per-part cleanup (line 218): `l.replace('–', '').replace('"', '')` —
dropping a single character is deletion of all its occurrences. -/
def cleanPart (l : List Char) : List Char := l.filter (fun c => c ≠ '–' ∧ c ≠ '"')

/-- One rendered `<line .../>` element of the diagnostic document. -/
structure DiagLine where
  date : String
  time : String
  level : String
  description : String
deriving DecidableEq

/-- Processing of one log line (lines 216–224): split on `" - "`, clean
each part, split the timestamp, and translate the severity.  Any
`IndexError` or `KeyError` is swallowed by the bare `except` and the line
is skipped, which the `Option` models. -/
def processLine (aline : String) : Option DiagLine :=
  let lineparts := (splitCh " - ".data (pstrip aline.data)).map cleanPart
  match lineparts[0]?, lineparts[2]?, lineparts[3]? with
  | some p0, some p2, some p3 =>
    let dt := splitCh [' '] (p0.map (fun c => if c = ',' then ':' else c))
    match dt[0]?, dt[1]? with
    | some d0, some d1 =>
      match trans (String.mk p2) with
      | some lvl => some ⟨String.mk d0, String.mk (d1.take 8), lvl, String.mk p3⟩
      | none => none
    | _, _ => none
  | _, _, _ => none

def renderLine (dl : DiagLine) : String :=
  "<line date=\"" ++ dl.date ++ "\" time=\"" ++ dl.time ++ "\" level=\"" ++
    dl.level ++ "\" description=\"" ++ dl.description ++ "\"/>"

def xmlHeader : List String :=
  ["<?xml version=\"1.0\" encoding=\"UTF-8\"?>",
   "<Diag xmlns:xsi=\"http://www.w3.org/2001/XMLSchema-instance\" ",
   "xmlns=\"http://www.wldelft.nl/fews/PI\" xsi:schemaLocation=\"http://www.wldelft.nl/fews/PI " ++
     "http://fews.wldelft.nl/schemas/version1.0/pi-schemas/pi_diag.xsd\" version=\"1.2\">"]

/-- Model of `log2xml` on the log file's lines (the file-exists case): the
fixed header, one element per successfully parsed line in order, and the
closing tag.  The renderer is total — no input line can make it fail. -/
def log2xml (lines : List String) : List String :=
  xmlHeader ++ (lines.filterMap processLine).map renderLine ++ ["</Diag>"]

/-! ## Sentinel client (`SentinelClient.download_products`,
scripts/sentinel/SentinelClient.py lines 166–205)

The whole download loop sits inside a single `try`; the matching `except`
logs one error and re-raises, so the first failing product ends the loop.
Products are modelled with the outcome of their download request. -/

structure SProduct where
  id : String
  name : String
  /-- Whether the download request chain succeeds; `false` models a
  `requests` exception out of `raise_for_status`. -/
  ok : Bool
deriving DecidableEq

def dlUrl (pid : String) : String :=
  "https://catalogue.dataspace.copernicus.eu/odata/v1/Products(" ++ pid ++ ")/$value"

/-- The `for product_id, product_name in zip(...)` loop body (lines
175–202), inside the surrounding `try`: a failing request jumps to the
`except` clause (lines 203–205), which logs one error and raises
`Exception`, abandoning the remaining products. -/
def downloadLoop : List SProduct → List Event
  | [] => []
  | p :: ps =>
    Event.log .info ("Download file from: " ++ dlUrl p.id) ::
    Event.netGet p.id ::
    (if p.ok then
      Event.writeArtifact (p.name ++ ".zip") ::
        Event.log .info ("Written product file to: " ++ p.name ++ ".zip") :: downloadLoop ps
     else
      [Event.log .error "Product download failed. Error: ...",
       Event.raiseExc "Exception: Product download failed."])

/-- Trace of `search_products` (lines 112–164) when the catalogue request
succeeds and returns the given products. -/
def search_products (ps : List SProduct) : List Event :=
  [Event.netGet "catalogue-search", Event.log .info "Returned product IDS: ..."] ++
    (if ps.isEmpty then [Event.log .info "No products found for given search criteria"] else [])

/-- Trace of `download_products` (lines 166–205) with a successful search
and token exchange: search, token only when at least one product matched,
then the download loop. -/
def download_products (ps : List SProduct) : List Event :=
  search_products ps ++
    (if ps.isEmpty then [] else [Event.netToken, Event.log .debug "Token generated"]) ++
    downloadLoop ps

/-! ## Shape predicates on coordinate trees

Boolean well-formedness of a polygon `coordinates` member (a non-empty
list of non-empty rings of vertices with at least two coordinates), bounds
of its vertices, and extraction of the 2-D vertex sequence. -/

def ptWFb : CoordTree → Bool
  | .point cs => 2 ≤ cs.length
  | .branch _ => false

def ringWFb : CoordTree → Bool
  | .branch pts => !pts.isEmpty && pts.all ptWFb
  | .point _ => false

def polyWFb : CoordTree → Bool
  | .branch rs => !rs.isEmpty && rs.all ringWFb
  | .point _ => false

/-- Bounds check of one 2-D vertex (inclusive, as the strict comparisons
of `check_bounds` accept the boundary values). -/
def vertOkB (v : ℚ × ℚ) : Bool :=
  decide (-180 ≤ v.1) && decide (v.1 ≤ 180) && decide (-90 ≤ v.2) && decide (v.2 ≤ 90)

/-- Bounds of the first two coordinates of a vertex — the only ones that
survive `ensure_2d` and that `check_bounds` inspects. -/
def ptInBoundsB : CoordTree → Bool
  | .point (lon :: lat :: _) => vertOkB (lon, lat)
  | _ => false

def ringInBoundsB : CoordTree → Bool
  | .branch pts => pts.all ptInBoundsB
  | .point _ => false

def polyInBoundsB : CoordTree → Bool
  | .branch rs => rs.all ringInBoundsB
  | .point _ => false

/-- Is every vertex already two-dimensional? -/
def ptIs2dB : CoordTree → Bool
  | .point cs => cs.length ≤ 2
  | .branch _ => false

def ring2dB : CoordTree → Bool
  | .branch pts => pts.all ptIs2dB
  | .point _ => false

def poly2dB : CoordTree → Bool
  | .branch rs => rs.all ring2dB
  | .point _ => false

def ptVert : CoordTree → ℚ × ℚ
  | .point (x :: y :: _) => (x, y)
  | _ => (0, 0)

def ringVerts : CoordTree → List (ℚ × ℚ)
  | .branch pts => pts.map ptVert
  | .point _ => []

/-- The 2-D vertex sequence of a polygon coordinate tree. -/
def polyVerts : CoordTree → List (List (ℚ × ℚ))
  | .branch rs => rs.map ringVerts
  | .point _ => []

/-- The coordinate tree of a polygon given by its 2-D vertex sequence. -/
def vertsToTree (vss : List (List (ℚ × ℚ))) : CoordTree :=
  .branch (vss.map (fun vs => .branch (vs.map (fun v => .point [v.1, v.2]))))

/-- Rounding to `d` decimal digits, as a rational. -/
def roundQ (d : ℕ) (q : ℚ) : ℚ := (roundScaled q d : ℚ) / 10 ^ d

def roundPair (d : ℕ) (v : ℚ × ℚ) : ℚ × ℚ := (roundQ d v.1, roundQ d v.2)

/-! ## Serialized forms

`ptTok` is the serialization of one vertex; `ringTokS`/`polyS` are the
spaced forms that `geomet.wkt.dumps` emits, `ringTokC`/`polyC` the compact
forms left after the `re.sub` whitespace strip. -/

def ptTok (d : ℕ) (v : ℚ × ℚ) : List Char := fmtCoord v.1 d ++ ' ' :: fmtCoord v.2 d

def ringTokS (d : ℕ) (vs : List (ℚ × ℚ)) : List Char :=
  '(' :: joinSep [',', ' '] (vs.map (ptTok d)) ++ [')']

def polyS (d : ℕ) (vss : List (List (ℚ × ℚ))) : List Char :=
  ['P', 'O', 'L', 'Y', 'G', 'O', 'N', ' ', '('] ++
    joinSep [',', ' '] (vss.map (ringTokS d)) ++ [')']

def ringTokC (d : ℕ) (vs : List (ℚ × ℚ)) : List Char :=
  '(' :: joinSep [','] (vs.map (ptTok d)) ++ [')']

def polyC (d : ℕ) (vss : List (List (ℚ × ℚ))) : List Char :=
  ['P', 'O', 'L', 'Y', 'G', 'O', 'N', '('] ++
    joinSep [','] (vss.map (ringTokC d)) ++ [')']

/-- Reference characterization of the whitespace strip: keep every
character except a space whose original predecessor is not a digit. -/
def stripSpec (l : List Char) : List Char :=
  (l.zip (none :: l.map some)).filterMap
    (fun cp => if cp.1 = ' ' ∧ prevDigit cp.2 = false then none else some cp.1)

/-! ## A reading of the emitted geometry string

An independent recursive-descent reading of the well-known-text polygon
syntax, used to state the round-trip law: `parsePolyWkt` recovers the ring
and vertex structure and the decimal value of every coordinate. -/

def headNotDigit : List Char → Bool
  | [] => true
  | c :: _ => !c.isDigit

def parseNatTok (l : List Char) : Option (ℕ × List Char) :=
  let ds := l.takeWhile Char.isDigit
  if ds.isEmpty then none else some (natVal ds, l.dropWhile Char.isDigit)

def parseUCoord (l : List Char) : Option (ℚ × List Char) :=
  match parseNatTok l with
  | none => none
  | some (a, r1) =>
    match r1 with
    | '.' :: r2 =>
      let ds := r2.takeWhile Char.isDigit
      if ds.isEmpty then none
      else some ((a : ℚ) + (natVal ds : ℚ) / 10 ^ ds.length, r2.dropWhile Char.isDigit)
    | _ => some ((a : ℚ), r1)

def parseCoord : List Char → Option (ℚ × List Char)
  | [] => parseUCoord []
  | c :: r => if c = '-' then (parseUCoord r).map (fun p => (-p.1, p.2)) else parseUCoord (c :: r)

def parsePt (l : List Char) : Option ((ℚ × ℚ) × List Char) :=
  match parseCoord l with
  | none => none
  | some (x, r1) =>
    match r1 with
    | c :: r2 =>
      if c = ' ' then
        match parseCoord r2 with
        | none => none
        | some (y, r3) => some ((x, y), r3)
      else none
    | [] => none

def parsePtsAux : ℕ → List Char → Option (List (ℚ × ℚ) × List Char)
  | 0, _ => none
  | f + 1, l =>
    match parsePt l with
    | none => none
    | some (p, r) =>
      match r with
      | c :: r2 =>
        if c = ',' then
          match parsePtsAux f r2 with
          | none => none
          | some (ps, r3) => some (p :: ps, r3)
        else some ([p], c :: r2)
      | [] => some ([p], [])

def parseRing (f : ℕ) (l : List Char) : Option (List (ℚ × ℚ) × List Char) :=
  match l with
  | c :: r =>
    if c = '(' then
      match parsePtsAux f r with
      | none => none
      | some (ps, r2) =>
        match r2 with
        | c2 :: r3 => if c2 = ')' then some (ps, r3) else none
        | [] => none
    else none
  | [] => none

def parseRingsAux (pf : ℕ) : ℕ → List Char → Option (List (List (ℚ × ℚ)) × List Char)
  | 0, _ => none
  | f + 1, l =>
    match parseRing pf l with
    | none => none
    | some (r, rest) =>
      match rest with
      | c :: r2 =>
        if c = ',' then
          match parseRingsAux pf f r2 with
          | none => none
          | some (rs, r3) => some (r :: rs, r3)
        else some ([r], c :: r2)
      | [] => some ([r], [])

def parsePolyWkt (l : List Char) : Option (List (List (ℚ × ℚ))) :=
  if l.take 8 = ['P', 'O', 'L', 'Y', 'G', 'O', 'N', '('] then
    match parseRingsAux (l.length + 1) (l.length + 1) (l.drop 8) with
    | none => none
    | some (rs, rest) => if rest = [')'] then some rs else none
  else none

def parseWktStr (s : String) : Option (List (List (ℚ × ℚ))) := parsePolyWkt s.data

/-- The character preceding a position, when the walk entered with
predecessor `p` and has since consumed `xs`. -/
def lastO (p : Option Char) (xs : List Char) : Option Char :=
  match xs.getLast? with
  | some c => some c
  | none => p

def extractedPairs (tr : List Event) : List (String × String) :=
  tr.filterMap (fun e => match e with | .extractMember a m => some (a, m) | _ => none)

instance {ε α : Type} [DecidableEq ε] [DecidableEq α] : DecidableEq (Except ε α) := fun a b =>
  match a, b with
  | .ok x, .ok y => decidable_of_iff (x = y) (by simp)
  | .error x, .error y => decidable_of_iff (x = y) (by simp)
  | .ok _, .error _ => isFalse (fun h => by cases h)
  | .error _, .ok _ => isFalse (fun h => by cases h)

/-! ## Concrete inputs used by the claims -/

/-- The AOI square polygon `[(0,0),(0,1),(1,1),(1,0),(0,0)]`. -/
def sqGeom : Geometry :=
  ⟨"Polygon",
   .branch [.branch [.point [0, 0], .point [0, 1], .point [1, 1], .point [1, 0], .point [0, 0]]]⟩

/-- A polygon whose only vertex has longitude 200. -/
def gLonA : Geometry := ⟨"Polygon", .branch [.branch [.point [200, 0]]]⟩

/-- A polygon whose only vertex has longitude 300 — a different offending
coordinate pair than `gLonA`. -/
def gLonB : Geometry := ⟨"Polygon", .branch [.branch [.point [300, 5]]]⟩

/-- A polygon sitting exactly on the coordinate boundary (180, 90). -/
def gEdge : Geometry := ⟨"Polygon", .branch [.branch [.point [180, 90]]]⟩

/-- A polygon with a three-dimensional, out-of-bounds vertex. -/
def g3d : Geometry := ⟨"Polygon", .branch [.branch [.point [200, 0, 5]]]⟩

/-- A properties block with all nine required keys, whose `resolution`
value is outside its enumeration. -/
def badResProps : List (String × String) :=
  [("destinationDir", "/out"), ("user", "u"), ("secret", "s"),
   ("mission", "RCMImageProducts"), ("unzip", "False"), ("download_type", "acquisition"),
   ("timeout", "5"), ("resolution", "BAD"), ("polarization", "HH")]

def badResEnv : RcmEnv := ⟨badResProps, [sqGeom], 1, 1, []⟩

/-- A fully valid properties block. -/
def goodProps : List (String × String) :=
  [("destinationDir", "/out"), ("user", "u"), ("secret", "s"),
   ("mission", "RCMImageProducts"), ("unzip", "False"), ("download_type", "acquisition"),
   ("timeout", "5"), ("resolution", "100M"), ("polarization", "HH")]

/-- A valid environment whose search returns zero products. -/
def zeroEnv : RcmEnv := ⟨goodProps, [sqGeom], 0, 0, []⟩

/-- A properties block whose `timeout` value is not a number. -/
def badTimeoutProps : List (String × String) :=
  [("destinationDir", "/out"), ("user", "u"), ("secret", "s"),
   ("mission", "RCMImageProducts"), ("unzip", "True"), ("download_type", "acquisition"),
   ("timeout", "soon"), ("resolution", "100M"), ("polarization", "HH")]

/-- An environment that reaches the search and the order but dies at
`int(float(properties['timeout']))`. -/
def badTimeoutEnv : RcmEnv := ⟨badTimeoutProps, [sqGeom], 1, 1, []⟩

/-- A properties block missing the `unzip` key. -/
def noUnzipProps : List (String × String) :=
  [("destinationDir", "/out"), ("user", "u"), ("secret", "s"),
   ("mission", "RCMImageProducts"), ("download_type", "acquisition"),
   ("timeout", "5"), ("resolution", "100M"), ("polarization", "HH")]

/-- An environment (nonzero search and download results) that completes the
download and dies at `properties['unzip']`. -/
def noUnzipEnv : RcmEnv := ⟨noUnzipProps, [sqGeom], 1, 1, []⟩

/-! ## General lemmas -/

theorem digitVal_digitChar {n : ℕ} (h : n < 10) : digitVal (digitChar n) = n := by
  interval_cases n <;> decide

theorem isDigit_digitChar {n : ℕ} (h : n < 10) : (digitChar n).isDigit = true := by
  interval_cases n <;> decide

theorem natStrAux_eq_of_lt {f g n : ℕ} (hf : n < 10 ^ f) (hg : n < 10 ^ g)
    (hf0 : 0 < f) (hg0 : 0 < g) : natStrAux f n = natStrAux g n := by
  induction f generalizing g n with
  | zero => omega
  | succ f ih =>
    obtain ⟨g, rfl⟩ : ∃ g', g = g' + 1 := ⟨g - 1, by omega⟩
    by_cases h10 : n < 10
    · simp [natStrAux, h10]
    · have hf' : 0 < f := by
        rcases Nat.eq_zero_or_pos f with h | h
        · subst h; simp at hf; omega
        · exact h
      have hg' : 0 < g := by
        rcases Nat.eq_zero_or_pos g with h | h
        · subst h; simp at hg; omega
        · exact h
      have hdf : n / 10 < 10 ^ f := by
        rw [Nat.div_lt_iff_lt_mul (by norm_num)]
        calc n < 10 ^ (f + 1) := hf
        _ = 10 ^ f * 10 := by ring
      have hdg : n / 10 < 10 ^ g := by
        rw [Nat.div_lt_iff_lt_mul (by norm_num)]
        calc n < 10 ^ (g + 1) := hg
        _ = 10 ^ g * 10 := by ring
      simp only [natStrAux, if_neg h10]
      rw [ih hdf hdg hf' hg']

theorem lt_pow_ten_succ (n : ℕ) : n < 10 ^ (n + 1) :=
  lt_of_lt_of_le (Nat.lt_pow_self (by norm_num) n)
    (Nat.pow_le_pow_right (by norm_num) (Nat.le_succ n))

/-- Unfolding equation for `natStr` in the recursive case. -/
theorem natStr_eq_append {n : ℕ} (h : ¬ n < 10) :
    natStr n = natStr (n / 10) ++ [digitChar (n % 10)] := by
  have h1 : natStrAux (n + 1) n = natStrAux n (n / 10) ++ [digitChar (n % 10)] := by
    simp [natStrAux, h]
  have h2 : natStrAux n (n / 10) = natStrAux (n / 10 + 1) (n / 10) := by
    apply natStrAux_eq_of_lt
    · calc n / 10 ≤ n := Nat.div_le_self n 10
      _ < 10 ^ n := Nat.lt_pow_self (by norm_num) n
    · exact lt_pow_ten_succ _
    · omega
    · omega
  rw [natStr, h1, h2, natStr]

theorem natStr_eq_single {n : ℕ} (h : n < 10) : natStr n = [digitChar n] := by
  simp [natStr, natStrAux, h]

theorem natStr_ne_nil (n : ℕ) : natStr n ≠ [] := by
  by_cases h : n < 10
  · rw [natStr_eq_single h]; simp
  · rw [natStr_eq_append h]; simp

theorem natStr_all_digits (n : ℕ) : ∀ c ∈ natStr n, c.isDigit = true := by
  induction n using Nat.strong_induction_on with
  | _ n ih =>
    by_cases h : n < 10
    · rw [natStr_eq_single h]
      intro c hc
      simp at hc
      subst hc
      exact isDigit_digitChar h
    · rw [natStr_eq_append h]
      intro c hc
      rcases List.mem_append.1 hc with h1 | h1
      · exact ih (n / 10) (Nat.div_lt_self (by omega) (by norm_num)) c h1
      · simp at h1
        subst h1
        exact isDigit_digitChar (Nat.mod_lt n (by norm_num))

theorem natVal_foldl_append (a : ℕ) (xs ys : List Char) :
    (xs ++ ys).foldl (fun a c => 10 * a + digitVal c) a =
      ys.foldl (fun a c => 10 * a + digitVal c) (xs.foldl (fun a c => 10 * a + digitVal c) a) := by
  rw [List.foldl_append]

theorem natVal_natStr (n : ℕ) : natVal (natStr n) = n := by
  induction n using Nat.strong_induction_on with
  | _ n ih =>
    by_cases h : n < 10
    · rw [natStr_eq_single h]
      simp [natVal, digitVal_digitChar h]
    · rw [natStr_eq_append h, natVal, natVal_foldl_append]
      have hrec : (natStr (n / 10)).foldl (fun a c => 10 * a + digitVal c) 0 = n / 10 :=
        ih (n / 10) (Nat.div_lt_self (by omega) (by norm_num))
      simp only [List.foldl_cons, List.foldl_nil, hrec,
        digitVal_digitChar (Nat.mod_lt n (by norm_num))]
      omega

theorem natStrAux_length {f n : ℕ} (h : n < 10 ^ f) : (natStrAux f n).length ≤ f := by
  induction f generalizing n with
  | zero => simp [natStrAux]
  | succ f ih =>
    by_cases h10 : n < 10
    · simp [natStrAux, h10]
    · have hd : n / 10 < 10 ^ f := by
        rw [Nat.div_lt_iff_lt_mul (by norm_num)]
        calc n < 10 ^ (f + 1) := h
        _ = 10 ^ f * 10 := by ring
      simp only [natStrAux, if_neg h10, List.length_append, List.length_cons,
        List.length_nil]
      have := ih hd
      omega

theorem natStr_length_le {n d : ℕ} (hd : 0 < d) (h : n < 10 ^ d) :
    (natStr n).length ≤ d := by
  have : natStr n = natStrAux d n := by
    rw [natStr]
    exact natStrAux_eq_of_lt (lt_pow_ten_succ n) h (by omega) hd
  rw [this]
  exact natStrAux_length h

theorem natVal_padZeros (d : ℕ) (l : List Char) : natVal (padZeros d l) = natVal l := by
  rw [padZeros, natVal, natVal_foldl_append]
  congr 1
  induction (d - l.length) with
  | zero => simp
  | succ k ih => simpa [List.replicate_succ, digitVal] using ih

theorem padZeros_length {d : ℕ} {l : List Char} (h : l.length ≤ d) :
    (padZeros d l).length = d := by
  simp [padZeros]
  omega

theorem padZeros_all_digits {d : ℕ} {l : List Char} (h : ∀ c ∈ l, c.isDigit = true) :
    ∀ c ∈ padZeros d l, c.isDigit = true := by
  intro c hc
  rcases List.mem_append.1 hc with h1 | h1
  · have := List.eq_of_mem_replicate h1
    subst this
    decide
  · exact h c h1

theorem roundScaled_eq_round (q : ℚ) (d : ℕ) : roundScaled q d = round (q * 10 ^ d) := by
  have hden : (q.den : ℚ) ≠ 0 := by positivity
  have hq : q * 10 ^ d + 1 / 2 =
      ((2 * q.num * 10 ^ d + (q.den : ℤ) : ℤ) : ℚ) / ((2 * q.den : ℕ) : ℚ) := by
    conv_lhs => rw [← Rat.num_div_den q]
    push_cast
    field_simp
    ring
  rw [round_eq, hq, Rat.floor_intCast_div_natCast, roundScaled]
  push_cast
  ring_nf

/-! ## Trace bookkeeping lemmas -/

theorem artifacts_append (a b : List Event) : artifacts (a ++ b) = artifacts a ++ artifacts b := by
  simp [artifacts, List.filterMap_append]

theorem countErrorLogs_append (a b : List Event) :
    countErrorLogs (a ++ b) = countErrorLogs a + countErrorLogs b := by
  simp [countErrorLogs, List.filter_append]

theorem raised_append (a b : List Event) : raised (a ++ b) = (raised a || raised b) := by
  simp [raised, List.any_append]

/-- Behaviour of the Sentinel download loop when every product before the
first failing one succeeds: the earlier products are fetched and written,
the failing product yields exactly one error log and the raised exception,
and nothing after it is touched. -/
theorem downloadLoop_one_failure (pre post : List SProduct) (p : SProduct)
    (hpre : ∀ q ∈ pre, q.ok = true) (hp : p.ok = false) :
    artifacts (downloadLoop (pre ++ p :: post)) = pre.map (fun q => q.name ++ ".zip") ∧
    countErrorLogs (downloadLoop (pre ++ p :: post)) = 1 ∧
    raised (downloadLoop (pre ++ p :: post)) = true := by
  induction pre with
  | nil =>
    simp [downloadLoop, hp, artifacts, countErrorLogs, raised, isErrorLog]
  | cons q pre ih =>
    have hq : q.ok = true := hpre q (by simp)
    have ih2 := ih (fun r hr => hpre r (by simp [hr]))
    simp only [List.cons_append, downloadLoop, hq, if_pos]
    simp [artifacts, countErrorLogs, raised, isErrorLog, ih2.1, ih2.2.1, ih2.2.2,
      artifacts, List.map_cons] at ih2 ⊢
    exact ⟨ih2.1, ih2.2.1, ih2.2.2⟩

theorem emitDiag_not_in_downloadLoop (ps : List SProduct) :
    Event.emitDiag ∉ downloadLoop ps := by
  induction ps with
  | nil => simp [downloadLoop]
  | cons p ps ih =>
    by_cases hp : p.ok = true <;> simp [downloadLoop, hp, ih]

theorem emitDiag_not_in_download_products (ps : List SProduct) :
    Event.emitDiag ∉ download_products ps := by
  have h1 := emitDiag_not_in_downloadLoop ps
  by_cases h : ps.isEmpty <;>
    simp [download_products, search_products, h, h1]

/-! ## Structural lemmas: `ensure_2d` on well-formed polygons -/

theorem ensure_2d_pt {p : CoordTree} (h : ptWFb p = true) :
    ensure_2d p = .ok (.point [(ptVert p).1, (ptVert p).2]) := by
  cases p with
  | branch ts => simp [ptWFb] at h
  | point cs =>
    cases cs with
    | nil => simp [ptWFb] at h
    | cons x cs1 =>
      cases cs1 with
      | nil => simp [ptWFb] at h
      | cons y rest => simp [ensure_2d, ptVert]

theorem ensure_2dList_pts {pts : List CoordTree} (h : ∀ p ∈ pts, ptWFb p = true) :
    ensure_2dList pts = .ok (pts.map (fun p => .point [(ptVert p).1, (ptVert p).2])) := by
  induction pts with
  | nil => simp [ensure_2dList]
  | cons p ps ih =>
    have hp := ensure_2d_pt (h p (by simp))
    have hps := ih (fun q hq => h q (by simp [hq]))
    simp [ensure_2dList, hp, hps]

theorem ensure_2d_ring {r : CoordTree} (h : ringWFb r = true) :
    ensure_2d r = .ok (.branch ((ringVerts r).map (fun v => .point [v.1, v.2]))) := by
  cases r with
  | point cs => simp [ringWFb] at h
  | branch pts =>
    rw [ringWFb, Bool.and_eq_true, Bool.not_eq_true'] at h
    obtain ⟨h1, h2⟩ := h
    rw [List.all_eq_true] at h2
    cases pts with
    | nil => simp at h1
    | cons p ps =>
      have hl := @ensure_2dList_pts (p :: ps) h2
      simp only [ensure_2d, hl, ringVerts, List.map_map]
      rfl

theorem ensure_2dList_rings {rs : List CoordTree} (h : ∀ r ∈ rs, ringWFb r = true) :
    ensure_2dList rs =
      .ok (rs.map (fun r => .branch ((ringVerts r).map (fun v => .point [v.1, v.2])))) := by
  induction rs with
  | nil => simp [ensure_2dList]
  | cons r rs ih =>
    have hr := ensure_2d_ring (h r (by simp))
    have hrs := ih (fun q hq => h q (by simp [hq]))
    simp [ensure_2dList, hr, hrs]

theorem ensure_2d_poly {t : CoordTree} (h : polyWFb t = true) :
    ensure_2d t = .ok (vertsToTree (polyVerts t)) := by
  cases t with
  | point cs => simp [polyWFb] at h
  | branch rs =>
    rw [polyWFb, Bool.and_eq_true, Bool.not_eq_true'] at h
    obtain ⟨h1, h2⟩ := h
    rw [List.all_eq_true] at h2
    cases rs with
    | nil => simp at h1
    | cons r rs =>
      have hl := @ensure_2dList_rings (r :: rs) h2
      simp only [ensure_2d, hl, vertsToTree, polyVerts, List.map_map]
      rfl

/-! ## Structural lemmas: `check_bounds` on 2-D polygons -/

theorem check_bounds_pt (v : ℚ × ℚ) :
    (vertOkB v = true → check_bounds (.point [v.1, v.2]) = .ok ()) ∧
    (vertOkB v = false →
      check_bounds (.point [v.1, v.2]) = .error (.valueError lonMsg) ∨
      check_bounds (.point [v.1, v.2]) = .error (.valueError latMsg)) := by
  obtain ⟨x, y⟩ := v
  constructor
  · intro h
    simp only [vertOkB, Bool.and_eq_true, decide_eq_true_eq] at h
    obtain ⟨⟨⟨ha, hb⟩, hc⟩, hd⟩ := h
    have h1 : ¬(180 < x ∨ x < -180) := by push_neg; exact ⟨hb, ha⟩
    have h2 : ¬(90 < y ∨ y < -90) := by push_neg; exact ⟨hd, hc⟩
    simp [check_bounds, h1, h2]
  · intro h
    by_cases h1 : 180 < x ∨ x < -180
    · left; simp [check_bounds, h1]
    · right
      have h2 : 90 < y ∨ y < -90 := by
        by_contra hy
        push_neg at h1 hy
        have : vertOkB (x, y) = true := by
          simp only [vertOkB, Bool.and_eq_true, decide_eq_true_eq]
          exact ⟨⟨⟨by linarith [h1.2], by linarith [h1.1]⟩, by linarith [hy.2]⟩,
            by linarith [hy.1]⟩
        rw [this] at h; cases h
      simp [check_bounds, h1, h2]

theorem check_boundsList_pts (vs : List (ℚ × ℚ)) :
    ((∀ v ∈ vs, vertOkB v = true) →
      check_boundsList (vs.map (fun v => .point [v.1, v.2])) = .ok ()) ∧
    (¬(∀ v ∈ vs, vertOkB v = true) →
      check_boundsList (vs.map (fun v => .point [v.1, v.2])) = .error (.valueError lonMsg) ∨
      check_boundsList (vs.map (fun v => .point [v.1, v.2])) = .error (.valueError latMsg)) := by
  induction vs with
  | nil => simp [check_boundsList]
  | cons v vs ih =>
    constructor
    · intro h
      have hv := (check_bounds_pt v).1 (h v (by simp))
      have hvs := ih.1 (fun q hq => h q (by simp [hq]))
      simp [check_boundsList, hv, hvs]
    · intro h
      by_cases hv : vertOkB v = true
      · have hcb := (check_bounds_pt v).1 hv
        have hrest : ¬(∀ q ∈ vs, vertOkB q = true) := by
          intro hall
          exact h (by intro q hq; rcases List.mem_cons.mp hq with rfl | hq2
                      · exact hv
                      · exact hall q hq2)
        rcases ih.2 hrest with he | he
        · left; simp [check_boundsList, hcb, he]
        · right; simp [check_boundsList, hcb, he]
      · rcases (check_bounds_pt v).2 (by simpa using hv) with he | he
        · left; simp [check_boundsList, he]
        · right; simp [check_boundsList, he]

theorem check_bounds_ring (vs : List (ℚ × ℚ)) (hne : vs ≠ []) :
    ((∀ v ∈ vs, vertOkB v = true) →
      check_bounds (.branch (vs.map (fun v => .point [v.1, v.2]))) = .ok ()) ∧
    (¬(∀ v ∈ vs, vertOkB v = true) →
      check_bounds (.branch (vs.map (fun v => .point [v.1, v.2]))) =
        .error (.valueError lonMsg) ∨
      check_bounds (.branch (vs.map (fun v => .point [v.1, v.2]))) =
        .error (.valueError latMsg)) := by
  cases vs with
  | nil => exact absurd rfl hne
  | cons v vs =>
    have h := check_boundsList_pts (v :: vs)
    constructor
    · intro hall
      have := h.1 hall
      simpa [check_bounds] using this
    · intro hbad
      rcases h.2 hbad with he | he
      · left; simpa [check_bounds] using he
      · right; simpa [check_bounds] using he

theorem check_boundsList_rings (vss : List (List (ℚ × ℚ))) (h1 : ∀ vs ∈ vss, vs ≠ []) :
    ((∀ vs ∈ vss, ∀ v ∈ vs, vertOkB v = true) →
      check_boundsList (vss.map (fun vs => .branch (vs.map (fun v => .point [v.1, v.2])))) =
        .ok ()) ∧
    (¬(∀ vs ∈ vss, ∀ v ∈ vs, vertOkB v = true) →
      check_boundsList (vss.map (fun vs => .branch (vs.map (fun v => .point [v.1, v.2])))) =
        .error (.valueError lonMsg) ∨
      check_boundsList (vss.map (fun vs => .branch (vs.map (fun v => .point [v.1, v.2])))) =
        .error (.valueError latMsg)) := by
  induction vss with
  | nil => simp [check_boundsList]
  | cons vs vss ih =>
    have hvs := check_bounds_ring vs (h1 vs (by simp))
    have ih2 := ih (fun q hq => h1 q (by simp [hq]))
    constructor
    · intro h
      have h3 := hvs.1 (h vs (by simp))
      have h4 := ih2.1 (fun q hq => h q (by simp [hq]))
      simp [check_boundsList, h3, h4]
    · intro h
      by_cases hv : ∀ v ∈ vs, vertOkB v = true
      · have hcb := hvs.1 hv
        have hrest : ¬(∀ q ∈ vss, ∀ v ∈ q, vertOkB v = true) := by
          intro hall
          exact h (by intro q hq; rcases List.mem_cons.mp hq with rfl | hq2
                      · exact hv
                      · exact hall q hq2)
        rcases ih2.2 hrest with he | he
        · left; simp [check_boundsList, hcb, he]
        · right; simp [check_boundsList, hcb, he]
      · rcases hvs.2 hv with he | he
        · left; simp [check_boundsList, he]
        · right; simp [check_boundsList, he]

theorem check_bounds_poly (vss : List (List (ℚ × ℚ))) (h0 : vss ≠ [])
    (h1 : ∀ vs ∈ vss, vs ≠ []) :
    ((∀ vs ∈ vss, ∀ v ∈ vs, vertOkB v = true) →
      check_bounds (vertsToTree vss) = .ok ()) ∧
    (¬(∀ vs ∈ vss, ∀ v ∈ vs, vertOkB v = true) →
      check_bounds (vertsToTree vss) = .error (.valueError lonMsg) ∨
      check_bounds (vertsToTree vss) = .error (.valueError latMsg)) := by
  cases vss with
  | nil => exact absurd rfl h0
  | cons vs vss =>
    have h := check_boundsList_rings (vs :: vss) h1
    constructor
    · intro hall
      have := h.1 hall
      simpa [vertsToTree, check_bounds] using this
    · intro hbad
      rcases h.2 hbad with he | he
      · left; simpa [vertsToTree, check_bounds] using he
      · right; simpa [vertsToTree, check_bounds] using he

/-! ## Structural lemmas: the dump side -/

theorem dumpPt_pt (d : ℕ) (v : ℚ × ℚ) : dumpPt d (.point [v.1, v.2]) = .ok (ptTok d v) := by
  simp [dumpPt, joinSep, ptTok]

theorem mapE_dumpPt (d : ℕ) (vs : List (ℚ × ℚ)) :
    mapE (dumpPt d) (vs.map (fun v => CoordTree.point [v.1, v.2])) = .ok (vs.map (ptTok d)) := by
  induction vs with
  | nil => simp [mapE]
  | cons v vs ih => simp [mapE, dumpPt_pt, ih]

theorem dumpRing_ring (d : ℕ) (vs : List (ℚ × ℚ)) :
    dumpRing d (.branch (vs.map (fun v => .point [v.1, v.2]))) = .ok (ringTokS d vs) := by
  simp only [dumpRing, mapE_dumpPt, ringTokS]
  rfl

theorem mapE_dumpRing (d : ℕ) (vss : List (List (ℚ × ℚ))) :
    mapE (dumpRing d) (vss.map (fun vs =>
      CoordTree.branch (vs.map (fun v => CoordTree.point [v.1, v.2])))) =
      .ok (vss.map (ringTokS d)) := by
  induction vss with
  | nil => simp [mapE]
  | cons vs vss ih => simp [mapE, dumpRing_ring, ih]

theorem wktDumps_verts (d : ℕ) (vss : List (List (ℚ × ℚ))) :
    wktDumps ⟨"Polygon", vertsToTree vss⟩ d = .ok (polyS d vss) := by
  simp only [wktDumps, vertsToTree, mapE_dumpRing, polyS, if_pos]
  rfl

/-! ## Structural lemmas: well-formedness transfers -/

theorem polyVerts_nonempty {t : CoordTree} (h : polyWFb t = true) :
    polyVerts t ≠ [] ∧ ∀ vs ∈ polyVerts t, vs ≠ [] := by
  cases t with
  | point cs => simp [polyWFb] at h
  | branch rs =>
    rw [polyWFb, Bool.and_eq_true, Bool.not_eq_true'] at h
    obtain ⟨h1, h2⟩ := h
    rw [List.all_eq_true] at h2
    constructor
    · intro hnil
      rw [polyVerts] at hnil
      rw [List.map_eq_nil_iff] at hnil
      subst hnil
      simp at h1
    · intro vs hvs
      simp only [polyVerts, List.mem_map] at hvs
      obtain ⟨r, hr, rfl⟩ := hvs
      have := h2 r hr
      cases r with
      | point cs => simp [ringWFb] at this
      | branch pts =>
        rw [ringWFb, Bool.and_eq_true, Bool.not_eq_true'] at this
        intro hnil
        rw [ringVerts, List.map_eq_nil_iff] at hnil
        subst hnil
        simp at this

theorem polyInBoundsB_iff {t : CoordTree} (hwf : polyWFb t = true) :
    polyInBoundsB t = true ↔ ∀ vs ∈ polyVerts t, ∀ v ∈ vs, vertOkB v = true := by
  cases t with
  | point cs => simp [polyWFb] at hwf
  | branch rs =>
    rw [polyWFb, Bool.and_eq_true, Bool.not_eq_true'] at hwf
    obtain ⟨h1, h2⟩ := hwf
    rw [List.all_eq_true] at h2
    simp only [polyInBoundsB, polyVerts, List.all_eq_true, List.mem_map]
    constructor
    · rintro h vs ⟨r, hr, rfl⟩ v hv
      have hrb := h r hr
      have hrw := h2 r hr
      cases r with
      | point cs => simp [ringWFb] at hrw
      | branch pts =>
        rw [ringWFb, Bool.and_eq_true] at hrw
        rw [List.all_eq_true] at hrw
        simp only [ringInBoundsB, List.all_eq_true] at hrb
        simp only [ringVerts, List.mem_map] at hv
        obtain ⟨p, hp, rfl⟩ := hv
        have hpb := hrb p hp
        have hpw := hrw.2 p hp
        cases p with
        | branch ts => simp [ptWFb] at hpw
        | point cs =>
          cases cs with
          | nil => simp [ptWFb] at hpw
          | cons x cs1 =>
            cases cs1 with
            | nil => simp [ptWFb] at hpw
            | cons y rest => simpa [ptInBoundsB, ptVert] using hpb
    · intro h r hr
      have hrw := h2 r hr
      cases r with
      | point cs => simp [ringWFb] at hrw
      | branch pts =>
        rw [ringWFb, Bool.and_eq_true] at hrw
        rw [List.all_eq_true] at hrw
        simp only [ringInBoundsB, List.all_eq_true]
        intro p hp
        have hpw := hrw.2 p hp
        have hpb := h (ringVerts (.branch pts)) ⟨.branch pts, hr, rfl⟩ (ptVert p)
          (by simp only [ringVerts, List.mem_map]; exact ⟨p, hp, rfl⟩)
        cases p with
        | branch ts => simp [ptWFb] at hpw
        | point cs =>
          cases cs with
          | nil => simp [ptWFb] at hpw
          | cons x cs1 =>
            cases cs1 with
            | nil => simp [ptWFb] at hpw
            | cons y rest => simpa [ptInBoundsB, ptVert] using hpb

/-! ## Character classes of the printed coordinates -/

theorem ne_of_isDigit {c x : Char} (h : c.isDigit = true) (hx : x.isDigit = false) : c ≠ x := by
  intro he
  subst he
  rw [h] at hx
  cases hx

theorem fmtCoord_chars {q : ℚ} {d : ℕ} :
    ∀ c ∈ fmtCoord q d, c.isDigit = true ∨ c = '-' ∨ c = '.' := by
  intro c hc
  rw [fmtCoord, coordStr] at hc
  rcases List.mem_append.1 hc with h1 | h1
  · rcases List.mem_append.1 h1 with h2 | h2
    · right; left
      by_cases hneg : roundScaled q d < 0 <;> simp [hneg] at h2
      exact h2
    · left; exact natStr_all_digits _ c h2
  · rcases List.mem_cons.1 h1 with rfl | h2
    · right; right; rfl
    · left; exact padZeros_all_digits (natStr_all_digits _) c h2

theorem fmtCoord_no_space {q : ℚ} {d : ℕ} : ∀ c ∈ fmtCoord q d, c ≠ ' ' := by
  intro c hc
  rcases fmtCoord_chars c hc with h | h | h
  · exact ne_of_isDigit h (by decide)
  · subst h; decide
  · subst h; decide

theorem fmtCoord_ne_nil (q : ℚ) (d : ℕ) : fmtCoord q d ≠ [] := by
  rw [fmtCoord, coordStr]
  intro h
  rw [List.append_eq_nil] at h
  rw [List.append_eq_nil] at h
  exact natStr_ne_nil _ h.1.2

theorem fmtCoord_getLast_digit (q : ℚ) (d : ℕ) (hd : 0 < d) :
    ∃ c, (fmtCoord q d).getLast? = some c ∧ c.isDigit = true := by
  have hb : (roundScaled q d).natAbs % 10 ^ d < 10 ^ d :=
    Nat.mod_lt _ (Nat.pos_pow_of_pos d (by norm_num))
  have hlen : (padZeros d (natStr ((roundScaled q d).natAbs % 10 ^ d))).length = d :=
    padZeros_length (natStr_length_le hd hb)
  have hpne : padZeros d (natStr ((roundScaled q d).natAbs % 10 ^ d)) ≠ [] := by
    intro h
    rw [h] at hlen
    simp at hlen
    omega
  have hshape : fmtCoord q d =
      ((if roundScaled q d < 0 then ['-'] else []) ++
        natStr ((roundScaled q d).natAbs / 10 ^ d) ++ ['.']) ++
        padZeros d (natStr ((roundScaled q d).natAbs % 10 ^ d)) := by
    rw [fmtCoord, coordStr]
    simp
  refine ⟨(padZeros d (natStr ((roundScaled q d).natAbs % 10 ^ d))).getLast hpne, ?_, ?_⟩
  · rw [hshape, List.getLast?_append_of_ne_nil _ hpne]
    exact List.getLast?_eq_getLast_of_ne_nil hpne
  · exact padZeros_all_digits (natStr_all_digits _) _ (List.getLast_mem hpne)

theorem ptTok_ne_nil (d : ℕ) (v : ℚ × ℚ) : ptTok d v ≠ [] := by
  rw [ptTok]
  intro h
  rw [List.append_eq_nil] at h
  cases h.2

/-! ## The whitespace strip on serialized polygons -/

theorem lastO_nil (p : Option Char) : lastO p [] = p := rfl

theorem stripAux_nil (p : Option Char) : stripAux p [] = [] := rfl

theorem stripAux_cons (p : Option Char) (c : Char) (rest : List Char) :
    stripAux p (c :: rest) =
      if c = ' ' ∧ prevDigit p = false then stripAux (some c) rest
      else c :: stripAux (some c) rest := rfl

theorem lastO_cons (p : Option Char) (c : Char) (t : List Char) :
    lastO p (c :: t) = lastO (some c) t := by
  cases t with
  | nil => rfl
  | cons e t2 =>
    simp only [lastO, List.getLast?_cons_cons]
    cases h : (e :: t2).getLast? with
    | none => exact absurd h (by simp)
    | some x => rfl

theorem stripAux_append (xs : List Char) : ∀ (p : Option Char) (ys : List Char),
    stripAux p (xs ++ ys) = stripAux p xs ++ stripAux (lastO p xs) ys := by
  induction xs with
  | nil => intro p ys; simp [stripAux, lastO_nil]
  | cons c t ih =>
    intro p ys
    rw [List.cons_append]
    by_cases hc : c = ' ' ∧ prevDigit p = false
    · simp only [stripAux_cons, if_pos hc, ih, lastO_cons]
    · simp only [stripAux_cons, if_neg hc, ih, lastO_cons, List.cons_append]

theorem stripAux_no_space {xs : List Char} (h : ∀ c ∈ xs, c ≠ ' ') :
    ∀ p, stripAux p xs = xs := by
  induction xs with
  | nil => intro p; rfl
  | cons c t ih =>
    intro p
    have hc : ¬(c = ' ' ∧ prevDigit p = false) := by
      intro hcc
      exact h c (by simp) hcc.1
    rw [stripAux_cons, if_neg hc, ih (fun x hx => h x (by simp [hx]))]

theorem lastO_of_getLast {p : Option Char} {xs : List Char} {c : Char}
    (h : xs.getLast? = some c) : lastO p xs = some c := by
  rw [lastO, h]

theorem stripAux_ptTok {d : ℕ} (hd : 0 < d) (v : ℚ × ℚ) :
    ∀ p, stripAux p (ptTok d v) = ptTok d v := by
  intro p
  obtain ⟨c, hcl, hcd⟩ := fmtCoord_getLast_digit v.1 d hd
  rw [ptTok, stripAux_append, stripAux_no_space fmtCoord_no_space,
    lastO_of_getLast hcl]
  have hsp : ¬((' ' : Char) = ' ' ∧ prevDigit (some c) = false) := by
    intro hcc
    rw [prevDigit, hcd] at hcc
    cases hcc.2
  rw [stripAux_cons, if_neg hsp, stripAux_no_space fmtCoord_no_space]

theorem strip_joinSep {A : Type} (f g : A → List Char)
    (hfg : ∀ a (p : Option Char), stripAux p (f a) = g a) :
    ∀ (xs : List A) (p : Option Char),
      stripAux p (joinSep [',', ' '] (xs.map f)) = joinSep [','] (xs.map g) := by
  intro xs
  induction xs with
  | nil => intro p; rfl
  | cons a xs ih =>
    intro p
    cases xs with
    | nil => exact hfg a p
    | cons b ys =>
      have hshape : joinSep [',', ' '] ((a :: b :: ys).map f) =
          f a ++ (',' :: ' ' :: joinSep [',', ' '] ((b :: ys).map f)) := by
        simp [joinSep]
      rw [hshape, stripAux_append, hfg a p]
      have h1 : ¬((',' : Char) = ' ' ∧
          prevDigit (lastO p (f a)) = false) := by
        intro hcc
        cases hcc.1
      rw [stripAux_cons, if_neg h1]
      have h2 : ((' ' : Char) = ' ' ∧ prevDigit (some ',') = false) := by
        constructor
        · rfl
        · decide
      rw [stripAux_cons, if_pos h2, ih]
      simp [joinSep]

theorem strip_ringTok {d : ℕ} (hd : 0 < d) (vs : List (ℚ × ℚ)) :
    ∀ p, stripAux p (ringTokS d vs) = ringTokC d vs := by
  intro p
  rw [ringTokS, ringTokC]
  have h1 : ¬(('(' : Char) = ' ' ∧ prevDigit p = false) := by
    intro hcc
    cases hcc.1
  rw [stripAux_append, stripAux_cons, if_neg h1,
    strip_joinSep (ptTok d) (ptTok d) (stripAux_ptTok hd) vs,
    stripAux_no_space (by intro c hc; simp at hc; subst hc; decide)]

theorem strip_polyS {d : ℕ} (hd : 0 < d) (vss : List (List (ℚ × ℚ))) :
    stripSpaces (polyS d vss) = polyC d vss := by
  rw [stripSpaces, polyS, polyC]
  rw [stripAux_append, stripAux_append]
  have hA : stripAux none ['P', 'O', 'L', 'Y', 'G', 'O', 'N', ' ', '('] =
      ['P', 'O', 'L', 'Y', 'G', 'O', 'N', '('] := by decide
  have hL : lastO none ['P', 'O', 'L', 'Y', 'G', 'O', 'N', ' ', '('] = some '(' := by decide
  rw [hA, hL, strip_joinSep (ringTokS d) (ringTokC d) (fun a p => strip_ringTok hd a p) vss,
    stripAux_no_space (by intro c hc; simp at hc; subst hc; decide)]

/-- The strip agrees with its positional characterization: a character is
removed exactly when it is a space whose original predecessor is not a
digit. -/
theorem stripAux_eq_spec (l : List Char) : ∀ p,
    stripAux p l = (l.zip (p :: l.map some)).filterMap
      (fun cp => if cp.1 = ' ' ∧ prevDigit cp.2 = false then none else some cp.1) := by
  induction l with
  | nil => intro p; rfl
  | cons c t ih =>
    intro p
    rw [stripAux_cons]
    by_cases hc : c = ' ' ∧ prevDigit p = false
    · rw [if_pos hc]
      simp only [List.map_cons, List.zip_cons_cons, List.filterMap_cons, if_pos hc]
      exact ih (some c)
    · rw [if_neg hc]
      simp only [List.map_cons, List.zip_cons_cons, List.filterMap_cons, if_neg hc]
      rw [ih (some c)]

theorem stripSpaces_eq_spec (l : List Char) : stripSpaces l = stripSpec l :=
  stripAux_eq_spec l none

/-- The strip never touches anything but spaces: the subsequence of
non-space characters — in particular every numeric literal — is preserved
verbatim. -/
theorem stripAux_filter_no_space (l : List Char) : ∀ p,
    (stripAux p l).filter (fun c => c ≠ ' ') = l.filter (fun c => c ≠ ' ') := by
  induction l with
  | nil => intro p; rfl
  | cons c t ih =>
    intro p
    rw [stripAux_cons]
    by_cases hc : c = ' ' ∧ prevDigit p = false
    · obtain ⟨hce, hpd⟩ := hc
      subst hce
      rw [if_pos ⟨rfl, hpd⟩]
      simp only [List.filter_cons]
      simpa using ih (some ' ')
    · rw [if_neg hc]
      by_cases hsp : c = ' '
      · subst hsp
        simp only [List.filter_cons]
        simpa using ih (some ' ')
      · have h2 : (decide ¬(c = ' ')) = true := by simp [hsp]
        simp only [List.filter_cons, ne_eq, h2, if_true]
        exact congrArg (c :: ·) (ih (some c))

/-! ## Reading back the printed coordinates -/

theorem headNotDigit_spec {l : List Char} (h : headNotDigit l = true) :
    ∀ c ∈ l.head?, c.isDigit = false := by
  cases l with
  | nil => simp
  | cons c t =>
    intro x hx
    simp only [List.head?_cons, Option.mem_def, Option.some.injEq] at hx
    subst hx
    simpa [headNotDigit] using h

theorem takeWhile_all {p : Char → Bool} {xs ys : List Char}
    (hx : ∀ c ∈ xs, p c = true) (hy : ∀ c ∈ ys.head?, p c = false) :
    (xs ++ ys).takeWhile p = xs ∧ (xs ++ ys).dropWhile p = ys := by
  induction xs with
  | nil =>
    simp only [List.nil_append]
    cases ys with
    | nil => simp
    | cons c t =>
      have hc := hy c rfl
      simp [List.takeWhile_cons, List.dropWhile_cons, hc]
  | cons x xs ih =>
    have hx1 := hx x (by simp)
    have ih2 := ih (fun c hc => hx c (by simp [hc]))
    simp [List.takeWhile_cons, List.dropWhile_cons, hx1, ih2.1, ih2.2]

theorem parseNatTok_append {n : ℕ} {rest : List Char} (h : headNotDigit rest = true) :
    parseNatTok (natStr n ++ rest) = some (n, rest) := by
  have ht := takeWhile_all (p := Char.isDigit) (natStr_all_digits n) (headNotDigit_spec h)
  have hne : (natStr n).isEmpty = false := by
    cases hh : natStr n with
    | nil => exact absurd hh (natStr_ne_nil n)
    | cons a b => rfl
  simp [parseNatTok, ht.1, ht.2, natVal_natStr, hne]

theorem parseUCoord_decimal {a b d : ℕ} {rest : List Char} (hd : 0 < d) (hb : b < 10 ^ d)
    (h : headNotDigit rest = true) :
    parseUCoord ((natStr a ++ '.' :: padZeros d (natStr b)) ++ rest) =
      some ((a : ℚ) + (b : ℚ) / 10 ^ d, rest) := by
  have hpd : ∀ c ∈ padZeros d (natStr b), c.isDigit = true :=
    padZeros_all_digits (natStr_all_digits b)
  have hlen : (padZeros d (natStr b)).length = d := padZeros_length (natStr_length_le hd hb)
  have hre : (natStr a ++ '.' :: padZeros d (natStr b)) ++ rest =
      natStr a ++ ('.' :: (padZeros d (natStr b) ++ rest)) := by simp
  rw [hre]
  have h1 := @parseNatTok_append a ('.' :: (padZeros d (natStr b) ++ rest)) (by rfl)
  have ht2 := takeWhile_all (p := Char.isDigit) hpd (headNotDigit_spec h)
  have hPne : (padZeros d (natStr b)).isEmpty = false := by
    cases hh : padZeros d (natStr b) with
    | nil => rw [hh] at hlen; simp at hlen; omega
    | cons u w => rfl
  simp [parseUCoord, h1, ht2.1, ht2.2, hPne, natVal_padZeros, natVal_natStr, hlen]

theorem parseCoord_of_head_not_minus {l : List Char} (h : ∀ c ∈ l.head?, c ≠ '-') :
    parseCoord l = parseUCoord l := by
  cases l with
  | nil => rfl
  | cons c r => simp [parseCoord, h c rfl]

theorem natAbs_decomp (n : ℤ) (d : ℕ) :
    ((n.natAbs / 10 ^ d : ℕ) : ℚ) + ((n.natAbs % 10 ^ d : ℕ) : ℚ) / 10 ^ d =
      (n.natAbs : ℚ) / 10 ^ d := by
  have hdm : 10 ^ d * (n.natAbs / 10 ^ d) + n.natAbs % 10 ^ d = n.natAbs :=
    Nat.div_add_mod _ _
  have hq : (10 : ℚ) ^ d * ((n.natAbs / 10 ^ d : ℕ) : ℚ) + ((n.natAbs % 10 ^ d : ℕ) : ℚ) =
      (n.natAbs : ℚ) := by exact_mod_cast congrArg (fun k : ℕ => (k : ℚ)) hdm
  have hp : ((10 : ℚ) ^ d) ≠ 0 := by positivity
  field_simp
  linarith [hq]

theorem parseCoord_coordStr {n : ℤ} {d : ℕ} {rest : List Char} (hd : 0 < d)
    (h : headNotDigit rest = true) :
    parseCoord (coordStr n d ++ rest) = some ((n : ℚ) / 10 ^ d, rest) := by
  have hb : n.natAbs % 10 ^ d < 10 ^ d :=
    Nat.mod_lt _ (Nat.pos_pow_of_pos d (by norm_num))
  by_cases hneg : n < 0
  · have hcs : coordStr n d ++ rest =
        '-' :: ((natStr (n.natAbs / 10 ^ d) ++
          '.' :: padZeros d (natStr (n.natAbs % 10 ^ d))) ++ rest) := by
      rw [coordStr, if_pos hneg]; simp
    rw [hcs]
    have hstep : parseCoord ('-' :: ((natStr (n.natAbs / 10 ^ d) ++
          '.' :: padZeros d (natStr (n.natAbs % 10 ^ d))) ++ rest)) =
        (parseUCoord ((natStr (n.natAbs / 10 ^ d) ++
          '.' :: padZeros d (natStr (n.natAbs % 10 ^ d))) ++ rest)).map
          (fun p => (-p.1, p.2)) := by
      simp [parseCoord]
    rw [hstep, parseUCoord_decimal hd hb h]
    have hcast : ((n.natAbs : ℕ) : ℚ) = -(n : ℚ) := by
      rw [Int.cast_natAbs]
      exact_mod_cast congrArg (fun k : ℤ => (k : ℚ)) (abs_of_neg hneg)
    have hval : -(((n.natAbs / 10 ^ d : ℕ) : ℚ) + ((n.natAbs % 10 ^ d : ℕ) : ℚ) / 10 ^ d) =
        (n : ℚ) / 10 ^ d := by
      rw [natAbs_decomp, hcast]
      ring
    rw [Option.map_some', hval]
  · have hcs : coordStr n d ++ rest =
        (natStr (n.natAbs / 10 ^ d) ++
          '.' :: padZeros d (natStr (n.natAbs % 10 ^ d))) ++ rest := by
      rw [coordStr, if_neg hneg]; simp
    rw [hcs]
    have hhead : ∀ c ∈ ((natStr (n.natAbs / 10 ^ d) ++
        '.' :: padZeros d (natStr (n.natAbs % 10 ^ d))) ++ rest).head?, c ≠ '-' := by
      cases hh : natStr (n.natAbs / 10 ^ d) with
      | nil => exact absurd hh (natStr_ne_nil _)
      | cons c cs =>
        intro x hx
        have hcd : c.isDigit = true := by
          have := natStr_all_digits (n.natAbs / 10 ^ d) c (by rw [hh]; simp)
          exact this
        simp only [hh, List.cons_append, List.head?_cons, Option.mem_def,
          Option.some.injEq] at hx
        subst hx
        exact ne_of_isDigit hcd (by decide)
    rw [parseCoord_of_head_not_minus hhead, parseUCoord_decimal hd hb h, natAbs_decomp]
    have hcast : ((n.natAbs : ℕ) : ℚ) = (n : ℚ) := by
      rw [Int.cast_natAbs]
      exact_mod_cast congrArg (fun k : ℤ => (k : ℚ)) (abs_of_nonneg (not_lt.mp hneg))
    rw [hcast]

theorem parsePt_tok {d : ℕ} (hd : 0 < d) (v : ℚ × ℚ) {rest : List Char}
    (h : headNotDigit rest = true) :
    parsePt (ptTok d v ++ rest) = some (roundPair d v, rest) := by
  have hre : ptTok d v ++ rest =
      coordStr (roundScaled v.1 d) d ++ (' ' :: (coordStr (roundScaled v.2 d) d ++ rest)) := by
    rw [ptTok, fmtCoord, fmtCoord]; simp
  rw [hre]
  rw [parsePt, parseCoord_coordStr hd (by rfl)]
  simp only [if_pos rfl]
  rw [parseCoord_coordStr hd h]
  simp [roundPair, roundQ]

theorem parsePtsAux_join {d : ℕ} (hd : 0 < d) :
    ∀ (vs : List (ℚ × ℚ)) (f : ℕ) (tail : List Char), vs ≠ [] → vs.length ≤ f →
      parsePtsAux f (joinSep [','] (vs.map (ptTok d)) ++ ')' :: tail) =
        some (vs.map (roundPair d), ')' :: tail) := by
  intro vs
  induction vs with
  | nil => intro f tail h _; exact absurd rfl h
  | cons v vs ih =>
    intro f tail _hne hlen
    obtain ⟨f2, rfl⟩ : ∃ f2, f = f2 + 1 := ⟨f - 1, by simp at hlen; omega⟩
    cases vs with
    | nil =>
      have hp := @parsePt_tok d hd v (')' :: tail) (by rfl)
      simp [joinSep, parsePtsAux, hp]
    | cons v2 vs2 =>
      have hshape : joinSep [','] ((v :: v2 :: vs2).map (ptTok d)) ++ ')' :: tail =
          ptTok d v ++ (',' :: (joinSep [','] ((v2 :: vs2).map (ptTok d)) ++ ')' :: tail)) := by
        simp [joinSep]
      have hp := @parsePt_tok d hd v
        (',' :: (joinSep [','] ((v2 :: vs2).map (ptTok d)) ++ ')' :: tail)) (by rfl)
      have hih := ih f2 tail (by simp) (by simp at hlen ⊢; omega)
      simp only [List.map_cons] at hshape hp hih ⊢
      rw [hshape]
      simp [parsePtsAux, hp, hih]

theorem parseRing_tok {d : ℕ} (hd : 0 < d) {pf : ℕ} (vs : List (ℚ × ℚ)) (tail : List Char)
    (hne : vs ≠ []) (hlen : vs.length ≤ pf) :
    parseRing pf (ringTokC d vs ++ tail) = some (vs.map (roundPair d), tail) := by
  have hshape : ringTokC d vs ++ tail =
      '(' :: (joinSep [','] (vs.map (ptTok d)) ++ ')' :: tail) := by
    rw [ringTokC]; simp
  rw [hshape]
  simp [parseRing, parsePtsAux_join hd vs pf tail hne hlen]

theorem parseRingsAux_join {d : ℕ} (hd : 0 < d) {pf : ℕ} :
    ∀ (vss : List (List (ℚ × ℚ))) (f : ℕ), vss ≠ [] → vss.length ≤ f →
      (∀ vs ∈ vss, vs ≠ [] ∧ vs.length ≤ pf) →
      parseRingsAux pf f (joinSep [','] (vss.map (ringTokC d)) ++ [')']) =
        some (vss.map (List.map (roundPair d)), [')']) := by
  intro vss
  induction vss with
  | nil => intro f h _ _; exact absurd rfl h
  | cons vs vss ih =>
    intro f _hne hlen hall
    obtain ⟨f2, rfl⟩ : ∃ f2, f = f2 + 1 := ⟨f - 1, by simp at hlen; omega⟩
    cases vss with
    | nil =>
      have hr := @parseRing_tok d hd pf vs [')'] (hall vs (by simp)).1 (hall vs (by simp)).2
      simp [joinSep, parseRingsAux, hr]
    | cons vs2 more =>
      have hshape : joinSep [','] ((vs :: vs2 :: more).map (ringTokC d)) ++ [')'] =
          ringTokC d vs ++ (',' :: (joinSep [','] ((vs2 :: more).map (ringTokC d)) ++ [')'])) := by
        simp [joinSep]
      have hr := @parseRing_tok d hd pf vs
        (',' :: (joinSep [','] ((vs2 :: more).map (ringTokC d)) ++ [')']))
        (hall vs (by simp)).1 (hall vs (by simp)).2
      have hih := ih f2 (by simp) (by simp at hlen ⊢; omega)
        (fun q hq => hall q (by simp [hq]))
      simp only [List.map_cons] at hshape hr hih ⊢
      rw [hshape]
      simp [parseRingsAux, hr, hih]

theorem joinSep_length_ge {sep : List Char} :
    ∀ (toks : List (List Char)), (∀ t ∈ toks, t ≠ []) →
      toks.length ≤ (joinSep sep toks).length := by
  intro toks
  induction toks with
  | nil => intro h; simp [joinSep]
  | cons t ts ih =>
    intro h
    cases ts with
    | nil =>
      have ht := h t (by simp)
      simpa [joinSep] using List.length_pos.mpr ht
    | cons t2 more =>
      have h1 := ih (fun q hq => h q (by simp [hq]))
      have ht := List.length_pos.mpr (h t (by simp))
      simp only [joinSep, List.length_cons, List.length_append] at h1 ⊢
      omega

theorem joinSep_length_mem {sep : List Char} :
    ∀ {toks : List (List Char)} {t : List Char}, t ∈ toks →
      t.length ≤ (joinSep sep toks).length := by
  intro toks
  induction toks with
  | nil => intro t h; cases h
  | cons a ts ih =>
    intro t h
    rcases List.mem_cons.mp h with rfl | h2
    · cases ts with
      | nil => simp [joinSep]
      | cons b more => simp [joinSep, List.length_append]
    · cases ts with
      | nil => cases h2
      | cons b more =>
        have := ih h2
        simp only [joinSep, List.length_append] at this ⊢
        omega

theorem parsePolyWkt_polyC {d : ℕ} (hd : 0 < d) (vss : List (List (ℚ × ℚ)))
    (h0 : vss ≠ []) (h1 : ∀ vs ∈ vss, vs ≠ []) :
    parsePolyWkt (polyC d vss) = some (vss.map (List.map (roundPair d))) := by
  have hshape : polyC d vss = 'P' :: 'O' :: 'L' :: 'Y' :: 'G' :: 'O' :: 'N' :: '(' ::
      (joinSep [','] (vss.map (ringTokC d)) ++ [')']) := by
    rw [polyC]; simp
  have hringsNe : ∀ t ∈ vss.map (ringTokC d), t ≠ [] := by
    intro t ht
    rw [List.mem_map] at ht
    obtain ⟨vs, _, rfl⟩ := ht
    rw [ringTokC]
    simp
  have hcount : vss.length ≤ (joinSep [','] (vss.map (ringTokC d))).length := by
    have := @joinSep_length_ge [','] (vss.map (ringTokC d)) hringsNe
    simpa using this
  have hper : ∀ vs ∈ vss, vs.length ≤ (joinSep [','] (vss.map (ringTokC d))).length := by
    intro vs hvs
    have ha : vs.length ≤ (joinSep [','] (vs.map (ptTok d))).length := by
      have := @joinSep_length_ge [','] (vs.map (ptTok d))
        (by intro t ht
            rw [List.mem_map] at ht
            obtain ⟨v, _, rfl⟩ := ht
            exact ptTok_ne_nil d v)
      simpa using this
    have hbz : (joinSep [','] (vs.map (ptTok d))).length ≤ (ringTokC d vs).length := by
      rw [ringTokC]
      simp only [List.length_append, List.length_cons, List.length_nil]
      omega
    have hc : (ringTokC d vs).length ≤ (joinSep [','] (vss.map (ringTokC d))).length :=
      joinSep_length_mem (List.mem_map_of_mem _ hvs)
    omega
  have hlen8 : ('P' :: 'O' :: 'L' :: 'Y' :: 'G' :: 'O' :: 'N' :: '(' ::
      (joinSep [','] (vss.map (ringTokC d)) ++ [')'])).length =
      (joinSep [','] (vss.map (ringTokC d))).length + 9 := by
    simp only [List.length_cons, List.length_append, List.length_nil]
  have ht8 : ('P' :: 'O' :: 'L' :: 'Y' :: 'G' :: 'O' :: 'N' :: '(' ::
      (joinSep [','] (vss.map (ringTokC d)) ++ [')'])).take 8 =
      ['P', 'O', 'L', 'Y', 'G', 'O', 'N', '('] := rfl
  have hd8 : ('P' :: 'O' :: 'L' :: 'Y' :: 'G' :: 'O' :: 'N' :: '(' ::
      (joinSep [','] (vss.map (ringTokC d)) ++ [')'])).drop 8 =
      joinSep [','] (vss.map (ringTokC d)) ++ [')'] := rfl
  have hb1 : vss.length ≤ ('P' :: 'O' :: 'L' :: 'Y' :: 'G' :: 'O' :: 'N' :: '(' ::
      (joinSep [','] (vss.map (ringTokC d)) ++ [')'])).length + 1 := by
    rw [hlen8]; omega
  have hb2 : ∀ vs ∈ vss, vs ≠ [] ∧ vs.length ≤ ('P' :: 'O' :: 'L' :: 'Y' :: 'G' :: 'O' ::
      'N' :: '(' :: (joinSep [','] (vss.map (ringTokC d)) ++ [')'])).length + 1 := by
    intro vs hvs
    refine ⟨h1 vs hvs, ?_⟩
    have := hper vs hvs
    rw [hlen8]
    omega
  rw [hshape, parsePolyWkt, ht8, hd8, if_pos rfl]
  rw [parseRingsAux_join hd vss _ h0 hb1 hb2]
  simp

/-! ## Claim C7 -/

/-- Claim C7: the round-trip law. For every polygon whose vertices are in
range, converting through `geojson_to_wkt` and then reading the emitted
geometry string back yields the original 2-D vertex sequence with every
coordinate rounded to the configured precision; and the whitespace strip
removes exactly the spaces whose original predecessor is not a digit — so
it never removes the space separating the two coordinates of a vertex
(which always follows a digit) and never alters a numeric literal (the
subsequence of non-space characters is preserved verbatim). -/
theorem c7_roundTrip :
    (∀ (g : Geometry) (d : ℕ), 0 < d → g.gtype = "Polygon" →
      polyWFb g.coordinates = true → polyInBoundsB g.coordinates = true →
      ((geojson_to_wkt g d).2.toOption.bind parseWktStr) =
        some ((polyVerts g.coordinates).map (List.map (roundPair d)))) ∧
    (∀ l : List Char, stripSpaces l = stripSpec l) ∧
    (∀ l : List Char,
      (stripSpaces l).filter (fun c => c ≠ ' ') = l.filter (fun c => c ≠ ' ')) := by
  refine ⟨?_, stripSpaces_eq_spec, fun l => stripAux_filter_no_space l none⟩
  intro g d hd hty hwf hb
  have he := ensure_2d_poly hwf
  have hne := polyVerts_nonempty hwf
  have hcb := (check_bounds_poly _ hne.1 hne.2).1 ((polyInBoundsB_iff hwf).mp hb)
  have hg2 : ({ g with coordinates := vertsToTree (polyVerts g.coordinates) } : Geometry) =
      ⟨"Polygon", vertsToTree (polyVerts g.coordinates)⟩ := by
    cases g with
    | mk ty co => simp_all
  have hdump : wktDumps { g with coordinates := vertsToTree (polyVerts g.coordinates) } d =
      .ok (polyS d (polyVerts g.coordinates)) := by
    rw [hg2]
    exact wktDumps_verts d _
  simp only [geojson_to_wkt, he, hcb, hdump]
  have hdata : (String.mk (stripSpaces (polyS d (polyVerts g.coordinates)))).data =
      stripSpaces (polyS d (polyVerts g.coordinates)) := rfl
  simp only [Except.toOption, Option.bind, parseWktStr, hdata]
  rw [strip_polyS hd]
  exact parsePolyWkt_polyC hd _ hne.1 hne.2

theorem c7_witness :
    ((geojson_to_wkt sqGeom 4).2.toOption.bind parseWktStr) =
      some ((polyVerts sqGeom.coordinates).map (List.map (roundPair 4))) :=
  c7_roundTrip.1 sqGeom 4 (by decide) rfl (by decide) (by decide)

/-! ## Claim C1 -/

/-- Claim C1, as stated, is false of the code: in
`SentinelClient.download_products` the `try` encloses the whole download
loop, so when the first of two matched products fails, zero (not `N−1 = 1`)
artifacts are written and the raised exception abandons the second
product. -/
theorem c1_counterexample :
    artifacts (download_products [⟨"A", "A", false⟩, ⟨"B", "B", true⟩]) = [] ∧
    countErrorLogs (download_products [⟨"A", "A", false⟩, ⟨"B", "B", true⟩]) = 1 ∧
    raised (download_products [⟨"A", "A", false⟩, ⟨"B", "B", true⟩]) = true := by
  decide

/-- Claim C1, amended: if among `N` matched products exactly one — the
`k`-th — fails to download, the `k−1` products before it are written as
artifacts, exactly one download-failure log entry is produced, and the
downloads of the remaining `N−k` products are aborted by the re-raised
exception. -/
theorem c1_amended (pre post : List SProduct) (p : SProduct)
    (hpre : ∀ q ∈ pre, q.ok = true) (hp : p.ok = false)
    (_hpost : ∀ q ∈ post, q.ok = true) :
    artifacts (download_products (pre ++ p :: post)) = pre.map (fun q => q.name ++ ".zip") ∧
    countErrorLogs (download_products (pre ++ p :: post)) = 1 ∧
    raised (download_products (pre ++ p :: post)) = true := by
  have hloop := downloadLoop_one_failure pre post p hpre hp
  have hne : (pre ++ p :: post).isEmpty = false := by cases pre <;> simp
  have h1 : download_products (pre ++ p :: post) =
      ([Event.netGet "catalogue-search", Event.log .info "Returned product IDS: ...",
        Event.netToken, Event.log .debug "Token generated"]) ++
        downloadLoop (pre ++ p :: post) := by
    simp [download_products, search_products, hne]
  refine ⟨?_, ?_, ?_⟩
  · rw [h1, artifacts_append, hloop.1]; rfl
  · rw [h1, countErrorLogs_append, hloop.2.1]; rfl
  · rw [h1, raised_append, hloop.2.2]; rfl

theorem c1_witness :
    artifacts (download_products [⟨"B", "B", true⟩, ⟨"A", "A", false⟩, ⟨"C", "C", true⟩]) =
      ["B.zip"] ∧
    countErrorLogs (download_products [⟨"B", "B", true⟩, ⟨"A", "A", false⟩, ⟨"C", "C", true⟩]) = 1 ∧
    raised (download_products [⟨"B", "B", true⟩, ⟨"A", "A", false⟩, ⟨"C", "C", true⟩]) = true :=
  c1_amended [⟨"B", "B", true⟩] [⟨"C", "C", true⟩] ⟨"A", "A", false⟩
    (by decide) (by decide) (by decide)

/-! ## Claim C2 -/

/-- Claim C2: the gate `error_check` does, when invoked, halt on the first
violating key with a log record naming it (and, for an enumeration
violation, the accepted values) — but `execute_download` never invokes it:
on a configuration whose `resolution` is outside its enumeration the run
performs the catalogue search, the order and the download without any halt
or any validation log, contradicting the claim that validation halts the
run before any network call. -/
theorem c2_gate_never_runs :
    error_check badResProps = ([.wrongValue "resolution" resolutionValues], true) ∧
    execute_download badResEnv =
      [.log .debug "RCMSearch loaded", .netSearch, .netOrder, .netDownload,
       .log .debug "Attribute unzip set to false, not unzipping files.",
       .log .info "Download finished", .emitDiag] ∧
    Event.netSearch ∈ execute_download badResEnv ∧
    Event.exitProc ∉ execute_download badResEnv ∧
    raised (execute_download badResEnv) = false := by
  decide

/-! ## Claim C8 -/

/-- Claim C8, as stated, is false of the code: a member whose extraction
fails is skipped by `except zipfile.error: pass` without any log entry —
the trace of an archive with a failing member contains no error (or any
other) record for it, only the per-archive debug line; the claim requires
the failure to be logged. -/
theorem c8_counterexample :
    extract_all [⟨"a.zip", [⟨"bad", false⟩, ⟨"good", true⟩]⟩, ⟨"b.zip", [⟨"g2", true⟩]⟩] =
      [.log .debug "a.zip", .extractMember "a.zip" "good",
       .log .debug "b.zip", .extractMember "b.zip" "g2"] ∧
    countErrorLogs
      (extract_all [⟨"a.zip", [⟨"bad", false⟩, ⟨"good", true⟩]⟩, ⟨"b.zip", [⟨"g2", true⟩]⟩]) = 0 := by
  decide

/-- Claim C8, amended: an archive member whose extraction fails is
silently skipped — no log entry is produced — and the failure never aborts
the remaining members of that archive nor the remaining archives: exactly
the members whose extraction succeeds are extracted, in order, and the
trace of a list of archives is the concatenation of the archives'
individual traces. -/
theorem extractedPairs_append (a b : List Event) :
    extractedPairs (a ++ b) = extractedPairs a ++ extractedPairs b := by
  simp [extractedPairs, List.filterMap_append]

theorem extractedPairs_cons_log (lv : LogLevel) (s : String) (tr : List Event) :
    extractedPairs (Event.log lv s :: tr) = extractedPairs tr := rfl

theorem countErrorLogs_cons_debug (s : String) (tr : List Event) :
    countErrorLogs (Event.log .debug s :: tr) = countErrorLogs tr := rfl

theorem raised_cons_log (lv : LogLevel) (s : String) (tr : List Event) :
    raised (Event.log lv s :: tr) = raised tr := by
  simp [raised]

theorem extract_all_cons (a : ZipArchive) (as : List ZipArchive) :
    extract_all (a :: as) =
      (Event.log .debug a.name ::
        (a.members.map (fun m =>
          if m.ok then [Event.extractMember a.name m.name] else [])).flatten) ++
        extract_all as := by
  simp [extract_all]

theorem memberBlock_pairs (aname : String) (ms : List ZipMember) :
    extractedPairs ((ms.map (fun m =>
        if m.ok then [Event.extractMember aname m.name] else [])).flatten) =
      (ms.filter (fun m => m.ok)).map (fun m => (aname, m.name)) := by
  induction ms with
  | nil => simp [extractedPairs]
  | cons m ms ih =>
    by_cases hm : m.ok <;>
      simp [hm, extractedPairs, List.filterMap_append, List.filter_cons] at ih ⊢ <;>
      exact ih

theorem memberBlock_no_logs (aname : String) (ms : List ZipMember) :
    countErrorLogs ((ms.map (fun m =>
        if m.ok then [Event.extractMember aname m.name] else [])).flatten) = 0 ∧
    raised ((ms.map (fun m =>
        if m.ok then [Event.extractMember aname m.name] else [])).flatten) = false := by
  induction ms with
  | nil => simp [countErrorLogs, raised]
  | cons m ms ih =>
    by_cases hm : m.ok <;>
      simp [hm, countErrorLogs, raised, isErrorLog, List.filter_append,
        List.any_append] at ih ⊢ <;>
      exact ih

/-- Claim C8, amended: an archive member whose extraction fails is
silently skipped — no log entry is produced — and the failure never aborts
the remaining members of that archive nor the remaining archives: exactly
the members whose extraction succeeds are extracted, in order, and the
trace of a list of archives is the concatenation of the archives'
individual traces. -/
theorem c8_amended :
    (∀ archives : List ZipArchive,
      extractedPairs (extract_all archives) =
        (archives.map (fun a =>
          (a.members.filter (fun m => m.ok)).map (fun m => (a.name, m.name)))).flatten ∧
      countErrorLogs (extract_all archives) = 0 ∧
      raised (extract_all archives) = false) ∧
    (∀ (pre post : List ZipArchive) (a : ZipArchive),
      extract_all (pre ++ a :: post) = extract_all pre ++ extract_all [a] ++ extract_all post) := by
  constructor
  · intro archives
    induction archives with
    | nil => simp [extract_all, extractedPairs, countErrorLogs, raised]
    | cons a as ih =>
      rw [extract_all_cons, List.cons_append]
      have hp := memberBlock_pairs a.name a.members
      have hl := memberBlock_no_logs a.name a.members
      refine ⟨?_, ?_, ?_⟩
      · rw [extractedPairs_cons_log, extractedPairs_append, hp, ih.1]
        simp only [List.map_cons, List.flatten_cons]
      · rw [countErrorLogs_cons_debug, countErrorLogs_append, hl.1, ih.2.1]
      · rw [raised_cons_log, raised_append, hl.2, ih.2.2]; rfl
  · intro pre post a
    simp [extract_all, List.map_append, List.flatten_append]

/-! ## Claim C9 -/

/-- Claim C9: `log2xml` translates the severity names to the fixed codes
Error→1, Warning→2, Info→3, Debug→4; a log line that does not parse into
the (timestamp, component, severity, message) shape is silently dropped
from the rendered document without affecting the rest of the run; and the
scenario line `2024-05-01 10:00:00,123 - log - ERROR - disk full` renders
with date `2024-05-01`, time `10:00:00`, level code `1` and description
`disk full`. -/
theorem c9_log2xml :
    (trans "ERROR" = some "1" ∧ trans "WARNING" = some "2" ∧
     trans "INFO" = some "3" ∧ trans "DEBUG" = some "4") ∧
    (∀ (xs : List String) (l : String) (ys : List String),
      processLine l = none → log2xml (xs ++ l :: ys) = log2xml (xs ++ ys)) ∧
    processLine "2024-05-01 10:00:00,123 - log - ERROR - disk full" =
      some ⟨"2024-05-01", "10:00:00", "1", "disk full"⟩ := by
  refine ⟨by decide, ?_, by decide⟩
  intro xs l ys h
  simp [log2xml, List.filterMap_append, List.filterMap_cons, h]

theorem c9_witness : log2xml ["garbage"] = log2xml [] :=
  c9_log2xml.2.1 [] "garbage" [] (by decide)

/-! ## Claim C3 -/

/-- Claim C3, as stated, is false of the code on two points: the raised
bounds error carries a fixed message that does not identify the offending
coordinate pair — two geometries with different offending vertices raise
the identical exception — and a vertex sitting exactly on the boundary
(longitude 180, latitude 90), which is not strictly within the open
ranges, raises nothing. -/
theorem c3_counterexample :
    (geojson_to_wkt gLonA 4).2 = Except.error (PyErr.valueError lonMsg) ∧
    (geojson_to_wkt gLonB 4).2 = Except.error (PyErr.valueError lonMsg) ∧
    polyVerts gLonA.coordinates ≠ polyVerts gLonB.coordinates ∧
    (geojson_to_wkt gEdge 4).2 = Except.ok "POLYGON((180.0000 90.0000))" := by
  decide

/-- Claim C3, amended: for every well-formed polygon geometry, if some
vertex has longitude outside `[-180, 180]` or latitude outside `[-90, 90]`
(boundary values accepted), `geojson_to_wkt` raises a `ValueError` whose
fixed message names the violated axis but not the offending pair; if every
vertex is within those closed ranges, no bounds error is raised and the
conversion succeeds. -/
theorem c3_amended (g : Geometry) (d : ℕ) (hty : g.gtype = "Polygon")
    (hwf : polyWFb g.coordinates = true) :
    (polyInBoundsB g.coordinates = true → ∃ w, (geojson_to_wkt g d).2 = Except.ok w) ∧
    (polyInBoundsB g.coordinates = false →
      (geojson_to_wkt g d).2 = Except.error (PyErr.valueError lonMsg) ∨
      (geojson_to_wkt g d).2 = Except.error (PyErr.valueError latMsg)) := by
  have he := ensure_2d_poly hwf
  have hne := polyVerts_nonempty hwf
  have hcb := check_bounds_poly (polyVerts g.coordinates) hne.1 hne.2
  constructor
  · intro hb
    have hall := (polyInBoundsB_iff hwf).mp hb
    have hok := hcb.1 hall
    have hd : wktDumps ⟨g.gtype, vertsToTree (polyVerts g.coordinates)⟩ d =
        .ok (polyS d (polyVerts g.coordinates)) := by
      rw [hty]; exact wktDumps_verts d _
    refine ⟨String.mk (stripSpaces (polyS d (polyVerts g.coordinates))), ?_⟩
    simp [geojson_to_wkt, he, hok, hd]
  · intro hb
    have hbad : ¬ ∀ vs ∈ polyVerts g.coordinates, ∀ v ∈ vs, vertOkB v = true := by
      intro hall
      rw [(polyInBoundsB_iff hwf).mpr hall] at hb
      cases hb
    rcases hcb.2 hbad with he2 | he2
    · left; simp [geojson_to_wkt, he, he2]
    · right; simp [geojson_to_wkt, he, he2]

theorem c3_witness : ∃ w, (geojson_to_wkt sqGeom 4).2 = Except.ok w :=
  (c3_amended sqGeom 4 rfl (by decide)).1 (by decide)

/-! ## Claim C10 -/

/-- Claim C10, as stated, is false of the code: `geojson_to_wkt` executes
`geometry['coordinates'] = ensure_2d(geometry['coordinates'])` before
validating bounds, so on a three-dimensional input whose longitude is out
of range the bounds error is raised after the input object has already
been rewritten to its 2-D projection — the input does not survive
unchanged. -/
theorem c10_counterexample :
    (geojson_to_wkt g3d 4).1 = ⟨"Polygon", .branch [.branch [.point [200, 0]]]⟩ ∧
    (geojson_to_wkt g3d 4).1 ≠ g3d ∧
    (geojson_to_wkt g3d 4).2 = Except.error (PyErr.valueError lonMsg) := by
  refine ⟨rfl, ?_, rfl⟩
  intro h
  have h1 : (⟨"Polygon", .branch [.branch [.point [200, 0]]]⟩ : Geometry) = g3d := h
  have h2 : (CoordTree.branch [.branch [.point [200, 0]]]) =
      CoordTree.branch [.branch [.point [200, 0, 5]]] :=
    congrArg Geometry.coordinates h1
  simp at h2

theorem map_eq_self_on {α : Type} (f : α → α) (l : List α) :
    l.map f = l ↔ ∀ a ∈ l, f a = a := by
  induction l with
  | nil => simp
  | cons a l ih => simp [ih]

theorem pt_vt_eq_self_iff {p : CoordTree} (h : ptWFb p = true) :
    CoordTree.point [(ptVert p).1, (ptVert p).2] = p ↔ ptIs2dB p = true := by
  cases p with
  | branch ts => simp [ptWFb] at h
  | point cs =>
    cases cs with
    | nil => simp [ptWFb] at h
    | cons x cs1 =>
      cases cs1 with
      | nil => simp [ptWFb] at h
      | cons y rest =>
        simp only [ptVert, ptIs2dB, CoordTree.point.injEq, List.length_cons,
          decide_eq_true_eq]
        constructor
        · intro heq
          have hlen := congrArg List.length heq
          simp only [List.length_cons, List.length_nil] at hlen
          omega
        · intro hlen
          have hr : rest = [] := by
            cases rest with
            | nil => rfl
            | cons z zs =>
              exfalso
              simp only [List.length_cons] at hlen
              omega
          subst hr
          rfl

theorem ring_vt_eq_self_iff {r : CoordTree} (h : ringWFb r = true) :
    CoordTree.branch ((ringVerts r).map (fun v => CoordTree.point [v.1, v.2])) = r ↔
      ring2dB r = true := by
  cases r with
  | point cs => simp [ringWFb] at h
  | branch pts =>
    rw [ringWFb, Bool.and_eq_true] at h
    rw [List.all_eq_true] at h
    rw [ringVerts, List.map_map, ring2dB, List.all_eq_true]
    rw [CoordTree.branch.injEq, map_eq_self_on]
    constructor
    · intro heq p hp
      exact (pt_vt_eq_self_iff (h.2 p hp)).mp (heq p hp)
    · intro heq p hp
      exact (pt_vt_eq_self_iff (h.2 p hp)).mpr (heq p hp)

theorem vt_eq_self_iff {t : CoordTree} (hwf : polyWFb t = true) :
    vertsToTree (polyVerts t) = t ↔ poly2dB t = true := by
  cases t with
  | point cs => simp [polyWFb] at hwf
  | branch rs =>
    rw [polyWFb, Bool.and_eq_true] at hwf
    rw [List.all_eq_true] at hwf
    rw [vertsToTree, polyVerts, List.map_map, poly2dB, List.all_eq_true]
    rw [CoordTree.branch.injEq, map_eq_self_on]
    constructor
    · intro heq r hr
      exact (ring_vt_eq_self_iff (hwf.2 r hr)).mp (heq r hr)
    · intro heq r hr
      exact (ring_vt_eq_self_iff (hwf.2 r hr)).mpr (heq r hr)

/-- Claim C10, amended: `geojson_to_wkt` is modelled by a pure function —
deterministic in its input and precision, with no input/output — but it
does mutate its input geometry: the 2-D projection of the coordinates is
written back into the input object before bounds validation (so also on
runs that raise a bounds error), and the input survives unchanged exactly
when its vertices were already two-dimensional. -/
theorem c10_amended (g : Geometry) (d : ℕ) (hwf : polyWFb g.coordinates = true) :
    (geojson_to_wkt g d).1 = g ↔ poly2dB g.coordinates = true := by
  have he := ensure_2d_poly hwf
  have h1 : (geojson_to_wkt g d).1 =
      { g with coordinates := vertsToTree (polyVerts g.coordinates) } := by
    simp only [geojson_to_wkt, he]
    rcases hcb : check_bounds (vertsToTree (polyVerts g.coordinates)) with e | u
    · simp [hcb]
    · rcases hd : wktDumps { g with coordinates := vertsToTree (polyVerts g.coordinates) } d
        with e | w <;> simp [hcb, hd]
  rw [h1]
  constructor
  · intro h
    exact (vt_eq_self_iff hwf).mp (congrArg Geometry.coordinates h)
  · intro h
    have hT := (vt_eq_self_iff hwf).mpr h
    cases g with
    | mk ty co => simpa using hT

theorem c10_witness : (geojson_to_wkt sqGeom 4).1 = sqGeom :=
  (c10_amended sqGeom 4 (by decide)).mpr (by decide)

/-! ## Claim C4 -/

/-- Claim C4, as stated, is false of the code: when the run-information
file cannot be read, the module level of get_rcm.py prints an error and
exits without ever writing the diagnostic document — a fatal halt above
the per-product level that does not attempt to emit it. -/
theorem c4_counterexample :
    rcmMain false zeroEnv =
      [.printMsg "ERROR: Reading INFO file - file not found. Check path to INFO file. ",
       .exitProc] ∧
    Event.emitDiag ∉ rcmMain false zeroEnv := by
  decide

/-- Claim C4, amended: the RCM script attempts the diagnostic document
only on its three normal terminal paths — the zero-result exit, the
download-timeout path and the completed run.  A run whose user, secret,
resolution, polarization and mission properties are present and whose
geometry converts emits it on a zero-result search; when the search
returns results, it emits it provided the post-search property reads
(lines 121, 123 and 130, after the search and order) also succeed: a
present and numeric timeout, a destinationDir key and an unzip key.
Every fatal halt skips the document, on both sides of the search: before
it (unreadable run-information file, missing pre-search key, missing or
invalid geometry) and after it — a present but non-numeric timeout raises
ValueError right after the order, and a missing unzip key with a nonzero
download result raises KeyError after the download, each with no
diagnostic.  The Sentinel script never writes a diagnostic document. -/
theorem c4_amended :
    (∀ env : RcmEnv,
      (env.props.lookup "user").isSome = true →
      (env.props.lookup "secret").isSome = true →
      (env.props.lookup "resolution").isSome = true →
      (env.props.lookup "polarization").isSome = true →
      (env.props.lookup "mission").isSome = true →
      (∃ g rest w, env.geoFiles = g :: rest ∧ (geojson_to_wkt g 4).2 = Except.ok w) →
      env.searchCount = 0 →
      Event.emitDiag ∈ execute_download env) ∧
    (∀ env : RcmEnv,
      (env.props.lookup "user").isSome = true →
      (env.props.lookup "secret").isSome = true →
      (env.props.lookup "resolution").isSome = true →
      (env.props.lookup "polarization").isSome = true →
      (env.props.lookup "mission").isSome = true →
      (∃ g rest w, env.geoFiles = g :: rest ∧ (geojson_to_wkt g 4).2 = Except.ok w) →
      (∃ t, env.props.lookup "timeout" = some t ∧ floatParseable t = true) →
      (env.props.lookup "destinationDir").isSome = true →
      (env.props.lookup "unzip").isSome = true →
      Event.emitDiag ∈ execute_download env) ∧
    (execute_download badTimeoutEnv =
       [.log .debug "RCMSearch loaded", .netSearch, .netOrder, .raiseExc "ValueError"] ∧
     Event.emitDiag ∉ execute_download badTimeoutEnv) ∧
    (execute_download noUnzipEnv =
       [.log .debug "RCMSearch loaded", .netSearch, .netOrder, .netDownload,
        .raiseExc "KeyError"] ∧
     Event.emitDiag ∉ execute_download noUnzipEnv) ∧
    (∀ ps : List SProduct, Event.emitDiag ∉ download_products ps) := by
  refine ⟨?_, ?_, by decide, by decide, emitDiag_not_in_download_products⟩
  · intro env h1 h2 h3 h4 h5 hgeo hsc
    obtain ⟨u, hu⟩ := Option.isSome_iff_exists.mp h1
    obtain ⟨s, hs⟩ := Option.isSome_iff_exists.mp h2
    obtain ⟨r, hr⟩ := Option.isSome_iff_exists.mp h3
    obtain ⟨pl, hpl⟩ := Option.isSome_iff_exists.mp h4
    obtain ⟨m, hm⟩ := Option.isSome_iff_exists.mp h5
    obtain ⟨g, rest, w, hgf, hgw⟩ := hgeo
    simp [execute_download, hu, hs, hr, hpl, hm, hgf, hgw, hsc]
  · intro env h1 h2 h3 h4 h5 hgeo htime h7 h8
    obtain ⟨u, hu⟩ := Option.isSome_iff_exists.mp h1
    obtain ⟨s, hs⟩ := Option.isSome_iff_exists.mp h2
    obtain ⟨r, hr⟩ := Option.isSome_iff_exists.mp h3
    obtain ⟨pl, hpl⟩ := Option.isSome_iff_exists.mp h4
    obtain ⟨m, hm⟩ := Option.isSome_iff_exists.mp h5
    obtain ⟨t, ht, htp⟩ := htime
    obtain ⟨dst, hdst⟩ := Option.isSome_iff_exists.mp h7
    obtain ⟨uz, huz⟩ := Option.isSome_iff_exists.mp h8
    obtain ⟨g, rest, w, hgf, hgw⟩ := hgeo
    simp only [execute_download, hu, hs, hr, hpl, hm, ht, htp, hdst, huz, hgf,
      List.head?_cons, hgw, if_true]
    by_cases hsc : env.searchCount = 0
    · simp [hsc]
    · by_cases hdc : env.downloadCount = 0 <;>
        by_cases huzT : uz = "True" <;>
        simp [hsc, hdc, huzT]

theorem c4_witness :
    Event.emitDiag ∈ execute_download zeroEnv ∧
    Event.emitDiag ∈ execute_download ⟨goodProps, [sqGeom], 1, 1, []⟩ :=
  ⟨c4_amended.1 zeroEnv (by decide) (by decide) (by decide) (by decide) (by decide)
     ⟨sqGeom, [], "POLYGON((0.0000 0.0000,0.0000 1.0000,1.0000 1.0000,1.0000 0.0000,0.0000 0.0000))",
      rfl, rfl⟩ (by decide),
   c4_amended.2.1 ⟨goodProps, [sqGeom], 1, 1, []⟩ (by decide) (by decide) (by decide)
     (by decide) (by decide)
     ⟨sqGeom, [], "POLYGON((0.0000 0.0000,0.0000 1.0000,1.0000 1.0000,1.0000 0.0000,0.0000 0.0000))",
      rfl, rfl⟩
     ⟨"5", by decide, by decide⟩ (by decide) (by decide)⟩

/-! ## Claim C5 -/

/-- Claim C5, as stated, is false of the code: the claim covers every run
of the system, but a Sentinel run whose search returns zero products ends
cleanly without any order attempt and without producing any diagnostic
document — the Sentinel script contains no diagnostic writer. -/
theorem c5_counterexample :
    download_products [] =
      [.netGet "catalogue-search", .log .info "Returned product IDS: ...",
       .log .info "No products found for given search criteria"] ∧
    Event.emitDiag ∉ download_products [] ∧
    raised (download_products []) = false := by
  decide

/-- Claim C5, amended: a zero-result search is a normal terminal path in
both scripts — no order is attempted and the exit is clean; the RCM script
additionally renders the diagnostic document before exiting, while the
Sentinel script exits without producing one. -/
theorem c5_amended :
    (∀ env : RcmEnv,
      (env.props.lookup "user").isSome = true →
      (env.props.lookup "secret").isSome = true →
      (env.props.lookup "resolution").isSome = true →
      (env.props.lookup "polarization").isSome = true →
      (env.props.lookup "mission").isSome = true →
      (∃ g rest w, env.geoFiles = g :: rest ∧ (geojson_to_wkt g 4).2 = Except.ok w) →
      env.searchCount = 0 →
      execute_download env =
        [.log .debug "RCMSearch loaded", .netSearch,
         .log .info "No images found, exiting download script...", .emitDiag, .exitProc] ∧
      Event.netOrder ∉ execute_download env ∧
      raised (execute_download env) = false) ∧
    (Event.emitDiag ∉ download_products [] ∧
     raised (download_products []) = false ∧
     artifacts (download_products []) = []) := by
  constructor
  · intro env h1 h2 h3 h4 h5 hgeo hsc
    obtain ⟨u, hu⟩ := Option.isSome_iff_exists.mp h1
    obtain ⟨s, hs⟩ := Option.isSome_iff_exists.mp h2
    obtain ⟨r, hr⟩ := Option.isSome_iff_exists.mp h3
    obtain ⟨pl, hpl⟩ := Option.isSome_iff_exists.mp h4
    obtain ⟨m, hm⟩ := Option.isSome_iff_exists.mp h5
    obtain ⟨g, rest, w, hgf, hgw⟩ := hgeo
    have hEq : execute_download env =
        [.log .debug "RCMSearch loaded", .netSearch,
         .log .info "No images found, exiting download script...", .emitDiag, .exitProc] := by
      simp [execute_download, hu, hs, hr, hpl, hm, hgf, hgw, hsc]
    refine ⟨hEq, ?_, ?_⟩ <;> rw [hEq] <;> decide
  · decide

theorem c5_witness :
    execute_download zeroEnv =
      [.log .debug "RCMSearch loaded", .netSearch,
       .log .info "No images found, exiting download script...", .emitDiag, .exitProc] :=
  (c5_amended.1 zeroEnv (by decide) (by decide) (by decide) (by decide) (by decide)
    ⟨sqGeom, [], "POLYGON((0.0000 0.0000,0.0000 1.0000,1.0000 1.0000,1.0000 0.0000,0.0000 0.0000))",
     rfl, rfl⟩ rfl).1

/-! ## Claim C6 -/

/-- Claim C6, as stated, is false of the code on one point: the converted
geometry string for the unit square at precision 4 is not
`POLYGON((0 0,0 1,1 1,1 0,0 0))` — geomet's `%.4f` formatting zero-pads
every coordinate to four decimal digits. -/
theorem c6_counterexample :
    (geojson_to_wkt sqGeom 4).2 ≠ Except.ok "POLYGON((0 0,0 1,1 1,1 0,0 0))" ∧
    (geojson_to_wkt sqGeom 4).2 =
      Except.ok
        "POLYGON((0.0000 0.0000,0.0000 1.0000,1.0000 1.0000,1.0000 0.0000,0.0000 0.0000))" := by
  decide

/-- Claim C6, amended: for the AOI square `[(0,0),(0,1),(1,1),(1,0),(0,0)]`
with resolution `100M` and polarization `HH`, the built filter contains the
`Beam Mnemonic like %100M%` clause, and the converted geometry string at
decimal precision 4 is
`POLYGON((0.0000 0.0000,0.0000 1.0000,1.0000 1.0000,1.0000 0.0000,0.0000 0.0000))`
— the square's vertices zero-padded to four decimals, with no elevation
coordinate and no whitespace except the separator inside each vertex. -/
theorem c6_amended :
    ("Beam Mnemonic", FilterVal.like ["%100M%"]) ∈ rcmFilters "100M" "HH" ∧
    ("Product Type", FilterVal.eq "GRD") ∈ rcmFilters "100M" "HH" ∧
    (geojson_to_wkt sqGeom 4).2 =
      Except.ok
        "POLYGON((0.0000 0.0000,0.0000 1.0000,1.0000 1.0000,1.0000 0.0000,0.0000 0.0000))" := by
  decide

end EORiverIce
